import Mathlib

/-!
# Persistent cache storage of the agent cache (`command/agent/cache/persistcache`)

A shallow embedding of the two `Storage` implementations, `MapStorage` (map.go)
and `BoltStorage` (bolt.go), together with the request routing and `Send` path of
the lease cache, and the properties proved about them.

Conventions of the embedding:

* a Go method with a pointer receiver becomes a function that takes the receiver
  state and returns the Go results together with the state after the call;
* a Go `error` result is an `Option StorageError`, `none` being `nil`;
* a Go slice result that may be `nil` is an `Option (List _)`, `none` being `nil`;
* a Go `map[string][]byte` is a finite map with unique keys (`GoMap`); the maps of
  a `MapStorage` are the non-nil maps that `NewMapStorage` allocates;
* the order in which `range` visits a Go map is not specified by the language, so
  the functions that range over a map take the order as a parameter (`seed`).
-/

namespace persistcache

/-- Stored bytes, the Go type `[]byte`. -/
abbrev Blob := List UInt8

/-- Kind of an index, the Go type `IndexType` (a string type, store.go). -/
abbrev IndexType := String

/-- Constant `LeaseType` of store.go. -/
def LeaseType : IndexType := "lease"

/-- Constant `TokenType` of store.go. -/
def TokenType : IndexType := "token"

/-- Errors of the bolt library that the storage code can meet. -/
inductive BoltError where
  | bucketExists
  | bucketNameRequired
  | keyRequired
  | keyTooLarge
  | valueTooLarge
  | incompatibleValue
  | openFailed
  deriving DecidableEq, Repr

/-- Errors returned by the storage implementations; each constructor stands for
one `fmt.Errorf` format of map.go or bolt.go, with the values it formats. -/
inductive StorageError where
  /-- Format `unknown index type %q`. -/
  | unknownIndexType (indexType : IndexType)
  /-- Format `index %q not found in storage`. -/
  | indexNotFound (id : String)
  /-- Format `bucket %q not found`. -/
  | bucketNotFound (name : String)
  /-- Format `failed to create bucket %s: %w`. -/
  | createTopFailed (name : String) (cause : BoltError)
  /-- Format `failed to create token sub-bucket: %w`. -/
  | createTokenFailed (cause : BoltError)
  /-- Format `failed to create lease sub-bucket: %w`. -/
  | createLeaseFailed (cause : BoltError)
  /-- Format `failed to delete %q from token bucket: %w`. -/
  | deleteTokenFailed (id : String) (cause : BoltError)
  /-- Format `failed to delete %q from lease bucket: %w`. -/
  | deleteLeaseFailed (id : String) (cause : BoltError)
  /-- An error of the bolt library passed on unwrapped. -/
  | bolt (cause : BoltError)
  deriving DecidableEq, Repr

/-- A Go `map[string][]byte`: finitely many entries, one per key. -/
abbrev GoMap := AList (fun _ : String => Blob)

/-- Equality of finite maps with string keys is decided on their entry lists. -/
instance decEqStringMap {β : Type} [DecidableEq β] :
    DecidableEq (AList (fun _ : String => β)) :=
  fun a b => decidable_of_iff (a.entries = b.entries) ⟨AList.ext, fun h => congrArg _ h⟩

/-- The entries of a map in the order one `range` loop visits them. Go leaves the
order unspecified; `seed` selects one of the orderings of the entries. -/
def rangeMap (seed : Nat) (m : GoMap) : List (Sigma fun _ : String => Blob) :=
  (m.entries.permutations).getD seed m.entries

/-- The struct `MapStorage` of map.go. -/
structure MapStorage where
  tokens : GoMap
  leases : GoMap
  deriving DecidableEq

/-- Function `NewMapStorage` of map.go: two empty maps. -/
def NewMapStorage : MapStorage :=
  { tokens := ∅, leases := ∅ }

/-- Method `MapStorage.Set` of map.go. -/
def MapStorage.Set (ms : MapStorage) (id : String) (index : Blob) (indexType : IndexType) :
    Option StorageError × MapStorage :=
  if indexType = LeaseType then
    (none, { ms with leases := ms.leases.insert id index })
  else if indexType = TokenType then
    (none, { ms with tokens := ms.tokens.insert id index })
  else
    (some (StorageError.unknownIndexType indexType), ms)

/-- Method `MapStorage.Delete` of map.go. -/
def MapStorage.Delete (ms : MapStorage) (id : String) : Option StorageError × MapStorage :=
  match ms.leases.lookup id with
  | some _ => (none, { ms with leases := ms.leases.erase id })
  | none =>
    match ms.tokens.lookup id with
    | some _ => (none, { ms with tokens := ms.tokens.erase id })
    | none => (some (StorageError.indexNotFound id), ms)

/-- The loop `for _, v := range m { returnBytes = append(returnBytes, v) }`. -/
def appendValues (seed : Nat) (m : GoMap) (returnBytes : List Blob) : List Blob :=
  (rangeMap seed m).foldl (fun acc kv => acc ++ [kv.2]) returnBytes

/-- Method `MapStorage.GetByType` of map.go; the results are the slice, the error
and the store after the call. -/
def MapStorage.GetByType (seed : Nat) (ms : MapStorage) (indexType : IndexType) :
    Option (List Blob) × Option StorageError × MapStorage :=
  if indexType = LeaseType then
    (some (appendValues seed ms.leases []), none, ms)
  else if indexType = TokenType then
    (some (appendValues seed ms.tokens []), none, ms)
  else
    (none, some (StorageError.unknownIndexType indexType), ms)

/-! ## The bolt database (library `go.etcd.io/bbolt`)

The storage code calls the library through `Open`, `Update`, `View`, `CreateBucket`,
`Bucket`, `Put`, `Delete` and `ForEach`. The definitions below give these calls
their documented behaviour on the databases this code builds: the root holds
top-level buckets, a top-level bucket holds sub-buckets, and a sub-bucket holds
key/value pairs. Failures of the file system (open, commit) are outside the model,
and so is the layout of the pages: the library reads the keys and values of a page
through slices of at most `maxAllocSize` bytes, and a bucket whose entries do not
fit in that many bytes is read back with a panic. -/

/-- A bucket of key/value pairs. -/
abbrev LeafBucket := AList (fun _ : String => Blob)

/-- A top-level bucket: its sub-buckets by name. -/
abbrev TopBucket := AList (fun _ : String => LeafBucket)

/-- The contents of a bolt database file: its top-level buckets by name. -/
abbrev BoltDB := AList (fun _ : String => TopBucket)

instance instDecidableEqTopBucket : DecidableEq TopBucket := decEqStringMap

instance instDecidableEqBoltDB : DecidableEq BoltDB := decEqStringMap

/-- Outcome of Go code that may dereference a nil pointer. -/
inductive Run (α : Type) where
  | done (a : α)
  | nilDereference
  deriving DecidableEq

/-- Length in bytes of a Go string. -/
def goLen (s : String) : Nat := s.utf8ByteSize

/-- Constant `MaxKeySize` of the bolt library. -/
def MaxKeySize : Nat := 32768

/-- Constant `MaxValueSize` of the bolt library, `(1 << 31) - 2`. -/
def MaxValueSize : Nat := 2 ^ 31 - 2

/-- Call `tx.CreateBucket(name)`: a new empty top-level bucket; an error if the
name is blank or already taken. -/
def txCreateBucket (tx : BoltDB) (name : String) : Except BoltError BoltDB :=
  if goLen name = 0 then Except.error BoltError.bucketNameRequired
  else match tx.lookup name with
    | some _ => Except.error BoltError.bucketExists
    | none => Except.ok (tx.insert name ∅)

/-- Call `top.CreateBucket(name)` on a top-level bucket: a new empty sub-bucket; an
error if the name is blank or already taken. -/
def bucketCreateBucket (top : TopBucket) (name : String) : Except BoltError TopBucket :=
  if goLen name = 0 then Except.error BoltError.bucketNameRequired
  else match top.lookup name with
    | some _ => Except.error BoltError.bucketExists
    | none => Except.ok (top.insert name ∅)

/-- Call `tx.Bucket(name)`: the top-level bucket, nil when there is none. -/
def txBucket (tx : BoltDB) (name : String) : Option TopBucket :=
  tx.lookup name

/-- Call `top.Bucket(name)`: the sub-bucket, nil when there is none. -/
def bucketBucket (top : TopBucket) (name : String) : Option LeafBucket :=
  top.lookup name

/-- Call `s.Put(key, value)`: sets the value of the key; an error if the key is
blank or too large, or the value too large. -/
def bucketPut (s : LeafBucket) (key : String) (value : Blob) : Except BoltError LeafBucket :=
  if goLen key = 0 then Except.error BoltError.keyRequired
  else if goLen key > MaxKeySize then Except.error BoltError.keyTooLarge
  else if value.length > MaxValueSize then Except.error BoltError.valueTooLarge
  else Except.ok (s.insert key value)

/-- Call `s.Delete(key)`: removes the key; a key that does not exist is not an
error. -/
def bucketDelete (s : LeafBucket) (key : String) : Except BoltError LeafBucket :=
  Except.ok (s.erase key)

/-- The pairs of a bucket in the order `ForEach` visits them: by ascending key. -/
def forEachOrder (s : LeafBucket) : List (Sigma fun _ : String => Blob) :=
  s.entries.insertionSort (fun a b => a.1 ≤ b.1)

/-- Call `db.Update(fn)`: runs `fn` in a read-write transaction, which is committed
when `fn` returns nil and rolled back when it returns an error. -/
def dbUpdate (db : BoltDB) (fn : BoltDB → Run (Option StorageError × BoltDB)) :
    Run (Option StorageError × BoltDB) :=
  match fn db with
  | Run.done (none, tx) => Run.done (none, tx)
  | Run.done (some err, _) => Run.done (some err, db)
  | Run.nilDereference => Run.nilDereference

/-- The struct `BoltStorage` of bolt.go: the open database and the name of the
top bucket. -/
structure BoltStorage where
  db : BoltDB
  topBucket : String
  deriving DecidableEq

/-- The transaction body of `NewBoltStorage`. -/
def createBuckets (tx : BoltDB) : Run (Option StorageError × BoltDB) :=
  match txCreateBucket tx "topBucket" with
  | Except.error err => Run.done (some (StorageError.createTopFailed "topBucket" err), tx)
  | Except.ok tx1 =>
    match bucketCreateBucket ∅ TokenType with
    | Except.error err => Run.done (some (StorageError.createTokenFailed err), tx1)
    | Except.ok top1 =>
      match bucketCreateBucket top1 LeaseType with
      | Except.error err =>
        Run.done (some (StorageError.createLeaseFailed err), tx1.insert "topBucket" top1)
      | Except.ok top2 => Run.done (none, tx1.insert "topBucket" top2)

/-- Function `NewBoltStorage` of bolt.go, on the database that `bolt.Open` yields
for the path. The results are the storage (nil on error), the error, and the
contents of the database after the call. -/
def NewBoltStorage (db : BoltDB) : Run (Option BoltStorage × Option StorageError × BoltDB) :=
  match dbUpdate db createBuckets with
  | Run.done (some err, db1) => Run.done (none, some err, db1)
  | Run.done (none, db1) =>
    Run.done (some { db := db1, topBucket := "topBucket" }, none, db1)
  | Run.nilDereference => Run.nilDereference

/-- Method `BoltStorage.Set` of bolt.go. -/
def BoltStorage.Set (b : BoltStorage) (id : String) (index : Blob) (indexType : IndexType) :
    Run (Option StorageError × BoltStorage) :=
  let body : BoltDB → Run (Option StorageError × BoltDB) := fun tx =>
    match txBucket tx b.topBucket with
    | none => Run.done (some (StorageError.bucketNotFound b.topBucket), tx)
    | some top =>
      match bucketBucket top indexType with
      | none => Run.done (some (StorageError.bucketNotFound indexType), tx)
      | some s =>
        match bucketPut s id index with
        | Except.error err => Run.done (some (StorageError.bolt err), tx)
        | Except.ok s1 => Run.done (none, tx.insert b.topBucket (top.insert indexType s1))
  match dbUpdate b.db body with
  | Run.done (err, db1) => Run.done (err, { b with db := db1 })
  | Run.nilDereference => Run.nilDereference

/-- Method `BoltStorage.Delete` of bolt.go. -/
def BoltStorage.Delete (b : BoltStorage) (id : String) :
    Run (Option StorageError × BoltStorage) :=
  let body : BoltDB → Run (Option StorageError × BoltDB) := fun tx =>
    match txBucket tx b.topBucket with
    | none => Run.done (some (StorageError.bucketNotFound b.topBucket), tx)
    | some top =>
      match bucketBucket top TokenType with
      | none => Run.nilDereference
      | some tok =>
        match bucketDelete tok id with
        | Except.error err => Run.done (some (StorageError.deleteTokenFailed id err), tx)
        | Except.ok tok1 =>
          let top1 := top.insert TokenType tok1
          match bucketBucket top1 LeaseType with
          | none => Run.nilDereference
          | some lea =>
            match bucketDelete lea id with
            | Except.error err =>
              Run.done (some (StorageError.deleteLeaseFailed id err), tx.insert b.topBucket top1)
            | Except.ok lea1 =>
              Run.done (none, tx.insert b.topBucket (top1.insert LeaseType lea1))
  match dbUpdate b.db body with
  | Run.done (err, db1) => Run.done (err, { b with db := db1 })
  | Run.nilDereference => Run.nilDereference

/-- Method `BoltStorage.GetByType` of bolt.go; `db.View` runs the body in a
read-only transaction. -/
def BoltStorage.GetByType (b : BoltStorage) (indexType : IndexType) :
    Run (Option (List Blob) × Option StorageError × BoltStorage) :=
  match txBucket b.db b.topBucket with
  | none => Run.done (none, some (StorageError.bucketNotFound b.topBucket), b)
  | some top =>
    match bucketBucket top indexType with
    | none => Run.nilDereference
    | some s =>
      Run.done (some ((forEachOrder s).foldl (fun acc kv => acc ++ [kv.2]) []), none, b)

/-- The map of a `MapStorage` that holds the indexes of the given kind. -/
def MapStorage.byKind (ms : MapStorage) (indexType : IndexType) : GoMap :=
  if indexType = LeaseType then ms.leases else ms.tokens

/-- The map of a `MapStorage` that holds the indexes of the other kind. -/
def MapStorage.otherKind (ms : MapStorage) (indexType : IndexType) : GoMap :=
  if indexType = LeaseType then ms.tokens else ms.leases

/-- The values of a map, one per key. -/
def mapValues (m : GoMap) : List Blob :=
  m.entries.map (fun kv => kv.2)

/-- The sub-bucket of the given name under the top bucket of a `BoltStorage`, when
both exist. -/
def BoltStorage.subBucket (b : BoltStorage) (name : String) : Option LeafBucket :=
  match txBucket b.db b.topBucket with
  | none => none
  | some top => bucketBucket top name

/-- A database as `NewBoltStorage` leaves it on a new file, after which two indexes
were stored. -/
def initialisedDB : BoltDB :=
  (∅ : BoltDB).insert "topBucket"
    (((∅ : TopBucket).insert "token" ((∅ : LeafBucket).insert "t1" [1])).insert "lease"
      ((∅ : LeafBucket).insert "l1" [2]))

/-- The database that `NewBoltStorage` builds on a new file: the top bucket with
its two empty sub-buckets. -/
def freshDB : BoltDB :=
  (∅ : BoltDB).insert "topBucket" (((∅ : TopBucket).insert "token" ∅).insert "lease" ∅)

/-- The bucket-existence invariant of a `BoltStorage`: the top bucket exists, and so
do its "token" and "lease" sub-buckets. -/
def BoltStorage.bucketsExist (b : BoltStorage) : Prop :=
  ∃ tok lea : LeafBucket,
    b.subBucket TokenType = some tok ∧ b.subBucket LeaseType = some lea

/-- The states of a `BoltStorage` that the code can reach: the storage that a
successful `NewBoltStorage` returns, and every storage that a returning `Set`,
`Delete` or `GetByType` leaves. -/
inductive BoltStorage.Reachable : BoltStorage → Prop where
  | opened (db db1 : BoltDB) (b : BoltStorage) :
      NewBoltStorage db = Run.done (some b, none, db1) → BoltStorage.Reachable b
  | afterSet (b b1 : BoltStorage) (id : String) (index : Blob) (indexType : IndexType)
      (err : Option StorageError) :
      BoltStorage.Reachable b → b.Set id index indexType = Run.done (err, b1) →
      BoltStorage.Reachable b1
  | afterDelete (b b1 : BoltStorage) (id : String) (err : Option StorageError) :
      BoltStorage.Reachable b → b.Delete id = Run.done (err, b1) →
      BoltStorage.Reachable b1
  | afterGetByType (b b1 : BoltStorage) (indexType : IndexType) (out : Option (List Blob))
      (err : Option StorageError) :
      BoltStorage.Reachable b → b.GetByType indexType = Run.done (out, err, b1) →
      BoltStorage.Reachable b1

/-- A call of the `Storage` interface of store.go. -/
inductive Op where
  | set (id : String) (index : Blob) (indexType : IndexType)
  | delete (id : String)
  | getByType (indexType : IndexType)
  deriving DecidableEq

/-- What a call of the `Storage` interface returns: the slice (nil for `Set` and
`Delete`) and the error. -/
abbrev Outcome := Option (List Blob) × Option StorageError

/-- One call on a `MapStorage`: what it returns, and the store after it. -/
def MapStorage.call (seed : Nat) (ms : MapStorage) (op : Op) : Outcome × MapStorage :=
  match op with
  | Op.set id index indexType => ((none, (ms.Set id index indexType).1), (ms.Set id index indexType).2)
  | Op.delete id => ((none, (ms.Delete id).1), (ms.Delete id).2)
  | Op.getByType indexType =>
    (((ms.GetByType seed indexType).1, (ms.GetByType seed indexType).2.1),
      (ms.GetByType seed indexType).2.2)

/-- One call on a `BoltStorage`: what it returns, and the storage after it. -/
def BoltStorage.call (b : BoltStorage) (op : Op) : Run (Outcome × BoltStorage) :=
  match op with
  | Op.set id index indexType =>
    match b.Set id index indexType with
    | Run.done (err, b1) => Run.done ((none, err), b1)
    | Run.nilDereference => Run.nilDereference
  | Op.delete id =>
    match b.Delete id with
    | Run.done (err, b1) => Run.done ((none, err), b1)
    | Run.nilDereference => Run.nilDereference
  | Op.getByType indexType =>
    match b.GetByType indexType with
    | Run.done (out, err, b1) => Run.done ((out, err), b1)
    | Run.nilDereference => Run.nilDereference

/-- Well-formed traffic: `Set` and `GetByType` with kind "token" or "lease", `Delete`
of an id that is stored in exactly one of the two maps. -/
def wellFormedOp (ms : MapStorage) (op : Op) : Prop :=
  match op with
  | Op.set _ _ indexType => indexType = TokenType ∨ indexType = LeaseType
  | Op.delete id => (id ∈ ms.tokens ∧ id ∉ ms.leases) ∨ (id ∉ ms.tokens ∧ id ∈ ms.leases)
  | Op.getByType indexType => indexType = TokenType ∨ indexType = LeaseType

/-- Constant `maxAllocSize` of the bolt library, `0x7FFFFFFF`: the number of bytes
that it addresses from an element of a page. -/
def maxAllocSize : Nat := 2 ^ 31 - 1

/-- Constant `leafPageElementSize` of the bolt library: the bytes of the header of
one key/value pair on a page. -/
def leafPageElementSize : Nat := 16

/-- The bytes that the entries of a map take when they are written on one page of a
bolt bucket: for every entry its header, its key and its value. -/
def storedSize (m : GoMap) : Nat :=
  (m.entries.map (fun kv => leafPageElementSize + goLen kv.1 + kv.2.length)).sum

/-- The calls that the bolt library serves: a `Set` whose id is not blank and has at
most `MaxKeySize` bytes, and after which the entries of the partition still fit in
the `maxAllocSize` bytes that the library addresses on a page. -/
def withinBoltLimits (ms : MapStorage) (op : Op) : Prop :=
  match op with
  | Op.set id index indexType =>
    goLen id ≠ 0 ∧ goLen id ≤ MaxKeySize ∧
      storedSize ((ms.byKind indexType).insert id index) ≤ maxAllocSize
  | Op.delete _ => True
  | Op.getByType _ => True

/-- A sequence of calls each of which satisfies `good` in the state of the
`MapStorage` it is made in. -/
def allCalls (good : MapStorage → Op → Prop) : MapStorage → List Op → Prop
  | _, [] => True
  | ms, op :: rest => good ms op ∧ ∀ seed : Nat, allCalls good (ms.call seed op).2 rest

/-- The two stores hold the same contents: both sub-buckets exist and map every id
to the blob that the map of the same kind maps it to. -/
def sameContents (ms : MapStorage) (b : BoltStorage) : Prop :=
  ∃ tok lea : LeafBucket,
    b.subBucket TokenType = some tok ∧ b.subBucket LeaseType = some lea ∧
    ∀ id : String, tok.lookup id = ms.tokens.lookup id ∧ lea.lookup id = ms.leases.lookup id

/-- Two calls have the same outcome: both return an error or neither does, and
they return the same blobs up to order (or both a nil slice). -/
def sameOutcome (m b : Outcome) : Prop :=
  (m.2 = none ↔ b.2 = none) ∧
  match m.1, b.1 with
  | some x, some y => x.Perm y
  | none, none => True
  | _, _ => False

/-- The two implementations agree along a sequence of calls: at every step the
`BoltStorage` call returns, with the same outcome as the `MapStorage` call whatever
order the map is ranged in, and the two stores hold the same contents after it. -/
def agreeAlong : MapStorage → BoltStorage → List Op → Prop
  | _, _, [] => True
  | ms, b, op :: rest =>
    ∀ seed : Nat, ∃ (out : Outcome) (b1 : BoltStorage),
      b.call op = Run.done (out, b1) ∧
      sameOutcome (ms.call seed op).1 out ∧
      sameContents (ms.call seed op).2 b1 ∧
      agreeAlong (ms.call seed op).2 b1 rest

end persistcache

/-! ## The lease cache (`command/agent/cache`)

The file `lease_cache.go` is not among the sources; only its test file is. The
definitions of this section follow the specification (sections 4.C and 4.D) and
the rows of the test tables. -/

namespace cache

open persistcache

/-- Modelled from the spec: the request handed to `Send`, the missing type
`SendRequest` of lease_cache.go, reduced to the parts the specification reads: the
caller token, the method, the URL, its path, the headers and the body. -/
structure SendRequest where
  Token : String
  Method : String
  URL : String
  Path : String
  Header : List (String × String)
  Body : Blob
  deriving DecidableEq

/-- Modelled from the spec: reading a header of the missing request type; the value
is empty when the header is absent (section 4.C, step 1). -/
def headerGet (header : List (String × String)) (name : String) : String :=
  match header.lookup name with
  | some value => value
  | none => ""

/-- Modelled from the spec: name of the namespace header read by the missing
function `deriveNamespaceAndRevocationPath` (section 6). -/
def NamespaceHeaderName : String := "X-Vault-Namespace"

/-- Modelled from the spec: the header namespace of the missing function
`deriveNamespaceAndRevocationPath`, "normalized to end in `/`; default `root/`"
(section 4.C, step 1). -/
def normaliseNamespace (hdr : String) : String :=
  if hdr = "" then "root/"
  else if hdr.toList.getLast? = some '/' then hdr
  else hdr ++ "/"

/-- Modelled from the spec: "strip the `/v1/` prefix from the URL path" (section
4.C, step 2) in the missing function `deriveNamespaceAndRevocationPath`; a path
without the prefix is left as it is. -/
def stripVersion (path : List Char) : List Char :=
  match path with
  | '/' :: 'v' :: '1' :: '/' :: rest => rest
  | _ => path

/-- Modelled from the spec: the revocation verb paths of the missing function
`deriveNamespaceAndRevocationPath` (section 4.C, step 3): `sys/leases/revoke`,
`sys/leases/revoke-self`, and `sys/leases/revoke-prefix/` or
`sys/leases/revoke-force/` followed by anything, for the star. -/
def RevocationPath (t : List Char) : Prop :=
  t = "sys/leases/revoke".toList ∨ t = "sys/leases/revoke-self".toList ∨
  (∃ x : List Char, t = "sys/leases/revoke-prefix/".toList ++ x) ∨
  (∃ x : List Char, t = "sys/leases/revoke-force/".toList ++ x)

/-- Modelled from the spec: the revocation verbs of the missing function
`deriveNamespaceAndRevocationPath` (section 4.C, step 3), on path segments:
`sys/leases/revoke`, `sys/leases/revoke-self`, `sys/leases/revoke-prefix/*` and
`sys/leases/revoke-force/*`, the star standing for whatever follows the slash, one
segment or several. -/
def isRevocationVerb (segs : List (List Char)) : Bool :=
  match segs with
  | [a, b, c] =>
    a == "sys".toList && b == "leases".toList &&
      (c == "revoke".toList || c == "revoke-self".toList)
  | a :: b :: c :: _ :: _ =>
    a == "sys".toList && b == "leases".toList &&
      (c == "revoke-prefix".toList || c == "revoke-force".toList)
  | _ => false

/-- Modelled from the spec: the search of the missing function
`deriveNamespaceAndRevocationPath` for the `sys/...` suffix of a path (section 4.C,
step 3); `pre` collects the segments that come before it, the namespace
segments. -/
def findRevocation (pre : List (List Char)) (segs : List (List Char)) :
    Option (List (List Char) × List (List Char)) :=
  if isRevocationVerb segs then some (pre, segs)
  else
    match segs with
    | [] => none
    | seg :: rest => findRevocation (pre ++ [seg]) rest

/-- Modelled from the spec: namespace segments written as a namespace, each segment
followed by `/` (section 4.C, the namespace column of the examples), for the
missing function `deriveNamespaceAndRevocationPath`. -/
def joinNamespace (pre : List (List Char)) : List Char :=
  (pre.map (fun seg => seg ++ ['/'])).flatten

/-- Modelled from the spec: the missing function `deriveNamespaceAndRevocationPath`
of lease_cache.go (section 4.C). A revocation returns `/v1/` and the `sys/...`
suffix as relative path, and the header namespace with the namespace segments
appended; following the rows of the examples without a header, the namespace
segments alone when no header is set. Anything else returns the header namespace
and the path unchanged. -/
def deriveNamespaceAndRevocationPath (req : SendRequest) : String × String :=
  let hdr := headerGet req.Header NamespaceHeaderName
  match findRevocation [] ((stripVersion req.Path.toList).splitOn '/') with
  | some (pre, verb) =>
    let namespace1 :=
      if pre = [] then normaliseNamespace hdr
      else if hdr = "" then String.mk (joinNamespace pre)
      else normaliseNamespace hdr ++ String.mk (joinNamespace pre)
    (namespace1, "/v1/" ++ String.mk (['/'].intercalate verb))
  | none => (normaliseNamespace hdr, req.Path)

/-- Modelled from the spec: the missing type `SendResponse` of lease_cache.go, the
status of the response and its body, read in advance (section 6). -/
structure SendResponse where
  StatusCode : Nat
  ResponseBody : Blob
  deriving DecidableEq

/-- Modelled from the spec: the fields of the JSON response body that the missing
method `Send` inspects (section 6): `auth.client_token`, `auth.accessor`,
`auth.renewable`, `lease_id` and `renewable`. -/
structure Secret where
  ClientToken : String
  Accessor : String
  AuthRenewable : Bool
  LeaseID : String
  Renewable : Bool
  deriving DecidableEq

/-- Modelled from the spec: the missing type `CacheEntry` (the index of package
cachememdb), section 3. `RenewCtxInfo` records whether a renewer runs for the
entry. -/
structure CacheEntry where
  ID : String
  RequestPath : String
  RequestMethod : String
  RequestHeader : List (String × String)
  RequestToken : String
  RequestBody : Blob
  Response : SendResponse
  Namespace : String
  Token : String
  TokenAccessor : String
  TokenParent : String
  Lease : String
  LeaseToken : String
  RenewCtxInfo : Bool
  deriving DecidableEq

/-- Modelled from the spec: the collaborators of the missing `LeaseCache` that the
specification names without defining: the hex-encoded SHA-256 of the canonical
tuple of token, method, URL and body (section 4.C), the JSON decoding of a response
body (section 6), and the serializer of an entry (section 4.D). -/
structure Collaborators where
  fingerprint : String → String → String → Blob → String
  parseSecret : Blob → Option Secret
  serialize : CacheEntry → Blob

/-- Modelled from the spec: the missing in-memory index of section 4.B, with at
most one entry for each `ID`. -/
abbrev Index := AList (fun _ : String => CacheEntry)

/-- Modelled from the spec: the missing struct `LeaseCache` of lease_cache.go: the
in-memory index and the registered auto-auth tokens (section 4.D). -/
structure LeaseCache where
  db : Index
  autoAuthTokens : List String

/-- Modelled from the spec: the missing method `RegisterAutoAuthToken`; the token
is registered and creates no entry (sections 4.D and 8). -/
def LeaseCache.RegisterAutoAuthToken (lc : LeaseCache) (token : String) : LeaseCache :=
  { lc with autoAuthTokens := token :: lc.autoAuthTokens }

/-- Modelled from the spec: the missing function `computeIndexID`, the fingerprint
of the tuple of token, method, URL and body of a request (section 4.C). -/
def computeIndexID (ext : Collaborators) (req : SendRequest) : String :=
  ext.fingerprint req.Token req.Method req.URL req.Body

/-- Modelled from the spec: lookup of the missing index by `Token`: whether a token
entry for the token is cached (section 4.B, section 4.D step 4). -/
def tokenCached (db : Index) (token : String) : Bool :=
  db.entries.any (fun kv => kv.2.Token ≠ "" && kv.2.Token == token)

/-- Modelled from the spec: what one call of the missing method `Send` yields: the
response or the error returned, whether the Proxier was consulted, the write
issued to the persistence backend if any (id, blob and kind), and the lease cache
after the call. -/
structure SendResult where
  resp : Option SendResponse
  err : Option String
  consulted : Bool
  persisted : Option (String × Blob × IndexType)
  lc : LeaseCache

/-- Modelled from the spec: steps 5 to 7 of the missing method `Send`: insert the
entry into the index, persist it under its kind, note the renewer, return the
response. -/
def cacheEntry (ext : Collaborators) (lc : LeaseCache) (entry : CacheEntry)
    (kind : IndexType) : SendResult :=
  { resp := some entry.Response
    err := none
    consulted := true
    persisted := some (entry.ID, ext.serialize entry, kind)
    lc := { lc with db := lc.db.insert entry.ID entry } }

/-- Modelled from the spec: the entry that the missing method `Send` builds for a
request and its response (section 4.D step 5, section 3) before the fields of its
kind are set: the fingerprint, the copy of the request, the response and the
namespace derived from the request. -/
def baseEntry (ext : Collaborators) (req : SendRequest) (resp : SendResponse) : CacheEntry :=
  { ID := computeIndexID ext req
    RequestPath := req.Path
    RequestMethod := req.Method
    RequestHeader := req.Header
    RequestToken := req.Token
    RequestBody := req.Body
    Response := resp
    Namespace := (deriveNamespaceAndRevocationPath req).1
    Token := ""
    TokenAccessor := ""
    TokenParent := ""
    Lease := ""
    LeaseToken := ""
    RenewCtxInfo := false }

/-- Modelled from the spec: the missing method `LeaseCache.Send` of lease_cache.go
(section 4.D, steps 1 to 7). `proxied` is what the Proxier returns for the request
if it is consulted. -/
def LeaseCache.Send (ext : Collaborators) (lc : LeaseCache) (req : SendRequest)
    (proxied : Except String SendResponse) : SendResult :=
  let id := computeIndexID ext req
  match lc.db.lookup id with
  | some entry =>
    { resp := some entry.Response, err := none, consulted := false, persisted := none, lc := lc }
  | none =>
    match proxied with
    | Except.error e =>
      { resp := none, err := some e, consulted := true, persisted := none, lc := lc }
    | Except.ok resp =>
      let uncached : SendResult :=
        { resp := some resp, err := none, consulted := true, persisted := none, lc := lc }
      let base : CacheEntry := baseEntry ext req resp
      if resp.StatusCode ≥ 400 then uncached
      else
        match ext.parseSecret resp.ResponseBody with
        | none => uncached
        | some secret =>
          if secret.ClientToken ≠ "" then
            cacheEntry ext lc
              { base with
                Token := secret.ClientToken
                TokenAccessor := secret.Accessor
                TokenParent := req.Token
                RenewCtxInfo := secret.AuthRenewable } TokenType
          else if secret.LeaseID ≠ "" then
            if req.Token ∈ lc.autoAuthTokens ∨ tokenCached lc.db req.Token = true then
              cacheEntry ext lc
                { base with
                  Lease := secret.LeaseID
                  LeaseToken := req.Token
                  RenewCtxInfo := secret.Renewable } LeaseType
            else uncached
          else uncached

/-- Modelled from the spec: the cacheability classes of step 4 of the missing method
`Send`: a token response, or a lease response whose request token is a registered
auto-auth token or the token of a cached token entry. -/
def cacheable (ext : Collaborators) (lc : LeaseCache) (req : SendRequest)
    (resp : SendResponse) : Prop :=
  ∃ secret : Secret, ext.parseSecret resp.ResponseBody = some secret ∧
    (secret.ClientToken ≠ "" ∨
      (secret.LeaseID ≠ "" ∧
        (req.Token ∈ lc.autoAuthTokens ∨ tokenCached lc.db req.Token = true)))

/-- Collaborators for a worked example: the fingerprint joins the four fields, the
body `[1]` decodes to a response carrying the token "testtoken", any other body
is not JSON, and entries serialize to their response body. -/
def exampleCollaborators : Collaborators where
  fingerprint := fun token method url body =>
    token ++ " " ++ method ++ " " ++ url ++ " " ++ toString body.length
  parseSecret := fun body =>
    if body = [1] then some ⟨"testtoken", "", true, "", false⟩ else none
  serialize := fun entry => entry.Response.ResponseBody

/-- The first request of the cacheable scenario of the tests: a GET of
`http://example.com/v1/sample/api` with the token "autoauthtoken". -/
def exampleRequest : SendRequest :=
  ⟨"autoauthtoken", "GET", "http://example.com/v1/sample/api", "/v1/sample/api", [], [7]⟩

/-- A lease cache with an empty index and the auto-auth token "autoauthtoken"
registered. -/
def exampleLeaseCache : LeaseCache :=
  LeaseCache.RegisterAutoAuthToken ⟨∅, []⟩ "autoauthtoken"

/-- Modelled from the spec: lookup of the missing index by `(Namespace,
RequestPath)` (section 4.B): the entry cached for the path in the namespace, if
any. -/
def getByRequestPath (db : Index) (ns : String) (path : String) : Option CacheEntry :=
  (db.entries.find? (fun kv => kv.2.Namespace == ns && kv.2.RequestPath == path)).map
    (fun kv => kv.2)

/-- Collaborators for a second worked example: the body `[2]` decodes to a response
carrying the lease "foo" and no token. -/
def exampleLeaseCollaborators : Collaborators where
  fingerprint := fun token method url body =>
    token ++ " " ++ method ++ " " ++ url ++ " " ++ toString body.length
  parseSecret := fun body =>
    if body = [2] then some ⟨"", "", false, "foo", false⟩ else none
  serialize := fun entry => entry.Response.ResponseBody

/-- The request of the scenario of the tests for a lease of a token that the lease
cache does not manage: a GET of `http://example.com/v1/sample/api` with the
token "foo". -/
def exampleUnmanagedRequest : SendRequest :=
  ⟨"foo", "GET", "http://example.com/v1/sample/api", "/v1/sample/api", [], [7]⟩

end cache


open persistcache

/-! ## MapStorage -/

/-- C1 (as the code has it): for an id that is a key of neither map,
`MapStorage.Delete` returns the error "index not found in storage" and leaves both
maps unchanged. -/
theorem MapStorage.delete_missing_is_error (ms : MapStorage) (id : String)
    (hl : id ∉ ms.leases) (ht : id ∉ ms.tokens) :
    ms.Delete id = (some (StorageError.indexNotFound id), ms) := by
  unfold MapStorage.Delete
  rw [AList.lookup_eq_none.mpr hl, AList.lookup_eq_none.mpr ht]

/-- Witness of C1: deleting "a" from a new map storage. -/
theorem MapStorage.delete_missing_is_error_witness :
    NewMapStorage.Delete "a" = (some (StorageError.indexNotFound "a"), NewMapStorage) :=
  MapStorage.delete_missing_is_error NewMapStorage "a" (by decide) (by decide)

/-- C1 as stated fails: "a" is a key of neither map of a new map storage, and
`Delete` returns an error for it. -/
theorem MapStorage.delete_missing_not_nil :
    "a" ∉ NewMapStorage.tokens ∧ "a" ∉ NewMapStorage.leases ∧
      (NewMapStorage.Delete "a").1 ≠ none := by
  decide

/-- C2 at its failing input: after `Set("a", [1], "token")` and
`Set("a", [2], "lease")`, `Delete("a")` returns nil, removes "a" from the lease map
only, and "a" is still a key of the token map with its blob. -/
theorem MapStorage.delete_in_both_keeps_token :
    (((NewMapStorage.Set "a" [1] TokenType).2.Set "a" [2] LeaseType).2.Delete "a").1 = none ∧
    "a" ∉ (((NewMapStorage.Set "a" [1] TokenType).2.Set "a" [2] LeaseType).2.Delete "a").2.leases ∧
    (((NewMapStorage.Set "a" [1] TokenType).2.Set "a" [2] LeaseType).2.Delete "a").2.tokens.lookup
      "a" = some [1] := by
  decide

/-- The number of keys after an insertion: unchanged for a key already present, one
more for a new key. -/
theorem keys_length_insert (m : GoMap) (id : String) (blob : Blob) :
    (m.insert id blob).keys.length =
      if id ∈ m then m.keys.length else m.keys.length + 1 := by
  rw [AList.keys_insert, List.length_cons]
  by_cases h : id ∈ m
  · have hk : id ∈ m.keys := AList.mem_keys.mp h
    have hpos : 0 < m.keys.length := List.length_pos_of_mem hk
    rw [if_pos h, List.length_erase_of_mem hk]
    omega
  · have hk : id ∉ m.keys := fun hk => h (AList.mem_keys.mpr hk)
    rw [if_neg h, List.erase_of_not_mem hk]

/-- C4: for a kind "token" or "lease", `MapStorage.Set` returns nil, afterwards the
map of that kind maps the id to exactly the blob given, and the number of ids of
that map is unchanged when the id was present and one more otherwise. -/
theorem MapStorage.set_is_upsert (ms : MapStorage) (id : String) (blob : Blob)
    (kind : IndexType) (hk : kind = TokenType ∨ kind = LeaseType) :
    (ms.Set id blob kind).1 = none ∧
    ((ms.Set id blob kind).2.byKind kind).lookup id = some blob ∧
    ((ms.Set id blob kind).2.byKind kind).keys.length =
      if id ∈ ms.byKind kind then (ms.byKind kind).keys.length
      else (ms.byKind kind).keys.length + 1 := by
  have hne : TokenType ≠ LeaseType := by decide
  rcases hk with rfl | rfl
  · simp only [MapStorage.Set, MapStorage.byKind, if_neg hne, if_true]
    exact ⟨trivial, AList.lookup_insert _, keys_length_insert _ _ _⟩
  · simp only [MapStorage.Set, MapStorage.byKind, if_true]
    exact ⟨trivial, AList.lookup_insert _, keys_length_insert _ _ _⟩

/-- Witness of C4: replacing the blob of "a" in the token map. -/
theorem MapStorage.set_is_upsert_witness :
    (TokenType = TokenType ∨ TokenType = LeaseType) ∧
    (((NewMapStorage.Set "a" [1] TokenType).2.Set "a" [2] TokenType).1 = none ∧
    ((((NewMapStorage.Set "a" [1] TokenType).2.Set "a" [2] TokenType).2.byKind
      TokenType).lookup "a" = some [2]) ∧
    ((((NewMapStorage.Set "a" [1] TokenType).2.Set "a" [2] TokenType).2.byKind
      TokenType).keys.length =
      if "a" ∈ (NewMapStorage.Set "a" [1] TokenType).2.byKind TokenType then
        ((NewMapStorage.Set "a" [1] TokenType).2.byKind TokenType).keys.length
      else ((NewMapStorage.Set "a" [1] TokenType).2.byKind TokenType).keys.length + 1)) :=
  ⟨Or.inl rfl,
    MapStorage.set_is_upsert (NewMapStorage.Set "a" [1] TokenType).2 "a" [2] TokenType
      (Or.inl rfl)⟩

/-- The order of one `range` loop is an ordering of the entries of the map. -/
theorem rangeMap_perm (seed : Nat) (m : GoMap) : (rangeMap seed m).Perm m.entries := by
  unfold rangeMap
  by_cases h : seed < m.entries.permutations.length
  · rw [List.getD_eq_getElem _ _ h]
    exact List.mem_permutations.mp (List.getElem_mem h)
  · rw [List.getD_eq_default _ _ (Nat.le_of_not_lt h)]

/-- The appending loop adds the values of the visited entries, in order. -/
theorem foldl_append_values (l : List (Sigma fun _ : String => Blob)) (init : List Blob) :
    l.foldl (fun acc kv => acc ++ [kv.2]) init = init ++ l.map (fun kv => kv.2) := by
  induction l generalizing init with
  | nil => simp
  | cons kv rest ih => simp [List.foldl_cons, ih]

/-- The slice built by the loop of `GetByType` is an ordering of the values of the
map. -/
theorem appendValues_perm (seed : Nat) (m : GoMap) :
    (appendValues seed m []).Perm (mapValues m) := by
  unfold appendValues mapValues
  rw [foldl_append_values, List.nil_append]
  exact (rangeMap_perm seed m).map _

/-- Every value of a map is the blob stored under one of its ids. -/
theorem mem_mapValues (m : GoMap) (b : Blob) (hb : b ∈ mapValues m) :
    ∃ id, m.lookup id = some b := by
  unfold mapValues at hb
  obtain ⟨kv, hkv, rfl⟩ := List.mem_map.mp hb
  refine ⟨kv.1, ?_⟩
  exact AList.mem_lookup_iff.mpr (by cases kv; exact hkv)

/-- The map has as many values as keys. -/
theorem mapValues_length (m : GoMap) : (mapValues m).length = m.keys.length := by
  simp [mapValues, AList.keys, List.keys]

/-- C5: for a kind "token" or "lease" and whatever order the map is ranged in,
`MapStorage.GetByType` returns nil as error and a slice that is a permutation of
the values of the map of that kind, with one blob per stored id, each of them the
blob of an id of that map, whatever the map of the other kind holds; the store is
unchanged; on a new store the slice is empty. -/
theorem MapStorage.getByType_values (seed : Nat) (ms : MapStorage) (kind : IndexType)
    (hk : kind = TokenType ∨ kind = LeaseType) :
    ∃ out : List Blob,
      ms.GetByType seed kind = (some out, none, ms) ∧
      out.Perm (mapValues (ms.byKind kind)) ∧
      out.length = (ms.byKind kind).keys.length ∧
      (∀ b ∈ out, ∃ id, (ms.byKind kind).lookup id = some b) ∧
      (∀ other : MapStorage, other.byKind kind = ms.byKind kind →
        (other.GetByType seed kind).1 = some out) ∧
      NewMapStorage.GetByType seed kind = (some [], none, NewMapStorage) := by
  have hne : TokenType ≠ LeaseType := by decide
  have key : ∀ m : GoMap, (appendValues seed m []).Perm (mapValues m) ∧
      (appendValues seed m []).length = m.keys.length ∧
      (∀ b ∈ appendValues seed m [], ∃ id, m.lookup id = some b) := fun m =>
    ⟨appendValues_perm seed m,
      by rw [(appendValues_perm seed m).length_eq, mapValues_length],
      fun b hb => mem_mapValues m b ((appendValues_perm seed m).mem_iff.mp hb)⟩
  have hnil : appendValues seed (∅ : GoMap) [] = [] :=
    List.length_eq_zero.mp (by rw [(key ∅).2.1]; rfl)
  rcases hk with rfl | rfl
  · refine ⟨appendValues seed ms.tokens [], ?_, ?_, ?_, ?_, ?_, ?_⟩
    · simp [MapStorage.GetByType, if_neg hne]
    · simpa [MapStorage.byKind, if_neg hne] using (key ms.tokens).1
    · simpa [MapStorage.byKind, if_neg hne] using (key ms.tokens).2.1
    · simpa [MapStorage.byKind, if_neg hne] using (key ms.tokens).2.2
    · intro other ho
      simp only [MapStorage.byKind, if_neg hne] at ho
      simp [MapStorage.GetByType, if_neg hne, ho]
    · simp only [MapStorage.GetByType, if_neg hne, if_true, NewMapStorage]
      rw [hnil]
  · refine ⟨appendValues seed ms.leases [], ?_, ?_, ?_, ?_, ?_, ?_⟩
    · simp [MapStorage.GetByType]
    · simpa [MapStorage.byKind] using (key ms.leases).1
    · simpa [MapStorage.byKind] using (key ms.leases).2.1
    · simpa [MapStorage.byKind] using (key ms.leases).2.2
    · intro other ho
      simp only [MapStorage.byKind, if_true] at ho
      simp [MapStorage.GetByType, ho]
    · simp only [MapStorage.GetByType, if_true, NewMapStorage]
      rw [hnil]

/-- Witness of C5: the leases of a store that holds two leases and one token,
ranged in the order of seed 1. -/
theorem MapStorage.getByType_values_witness :
    (LeaseType = TokenType ∨ LeaseType = LeaseType) ∧
    ∃ out : List Blob,
      (⟨AList.singleton "t" [9], (AList.singleton "a" [1]).insert "b" [2]⟩ :
        MapStorage).GetByType 1 LeaseType =
        (some out, none, ⟨AList.singleton "t" [9], (AList.singleton "a" [1]).insert "b" [2]⟩) ∧
      out.Perm (mapValues ((⟨AList.singleton "t" [9], (AList.singleton "a" [1]).insert "b" [2]⟩ :
        MapStorage).byKind LeaseType)) ∧
      out.length = ((⟨AList.singleton "t" [9], (AList.singleton "a" [1]).insert "b" [2]⟩ :
        MapStorage).byKind LeaseType).keys.length ∧
      (∀ b ∈ out, ∃ id, ((⟨AList.singleton "t" [9], (AList.singleton "a" [1]).insert "b" [2]⟩ :
        MapStorage).byKind LeaseType).lookup id = some b) ∧
      (∀ other : MapStorage, other.byKind LeaseType =
          (⟨AList.singleton "t" [9], (AList.singleton "a" [1]).insert "b" [2]⟩ :
            MapStorage).byKind LeaseType →
        (other.GetByType 1 LeaseType).1 = some out) ∧
      NewMapStorage.GetByType 1 LeaseType = (some [], none, NewMapStorage) :=
  ⟨Or.inr rfl,
    MapStorage.getByType_values 1
      ⟨AList.singleton "t" [9], (AList.singleton "a" [1]).insert "b" [2]⟩ LeaseType
      (Or.inr rfl)⟩

/-- C7: for a kind "token" or "lease", `MapStorage.Set` leaves the map of the other
kind unchanged, and leaves the blob of every other id of the same kind unchanged. -/
theorem MapStorage.set_frame (ms : MapStorage) (id : String) (blob : Blob)
    (kind : IndexType) (hk : kind = TokenType ∨ kind = LeaseType) :
    (ms.Set id blob kind).2.otherKind kind = ms.otherKind kind ∧
    ∀ id2 : String, id2 ≠ id →
      ((ms.Set id blob kind).2.byKind kind).lookup id2 = (ms.byKind kind).lookup id2 := by
  have hne : TokenType ≠ LeaseType := by decide
  rcases hk with rfl | rfl
  · simp only [MapStorage.Set, MapStorage.byKind, MapStorage.otherKind, if_neg hne, if_true]
    exact ⟨trivial, fun id2 h => AList.lookup_insert_ne h⟩
  · simp only [MapStorage.Set, MapStorage.byKind, MapStorage.otherKind, if_true]
    exact ⟨trivial, fun id2 h => AList.lookup_insert_ne h⟩

/-- Witness of C7: storing a token under an id that the lease map also holds. -/
theorem MapStorage.set_frame_witness :
    (TokenType = TokenType ∨ TokenType = LeaseType) ∧
    ((⟨AList.singleton "b" [7], AList.singleton "a" [1]⟩ : MapStorage).Set "a" [2]
        TokenType).2.otherKind TokenType =
      (⟨AList.singleton "b" [7], AList.singleton "a" [1]⟩ : MapStorage).otherKind TokenType ∧
    ∀ id2 : String, id2 ≠ "a" →
      (((⟨AList.singleton "b" [7], AList.singleton "a" [1]⟩ : MapStorage).Set "a" [2]
        TokenType).2.byKind TokenType).lookup id2 =
      ((⟨AList.singleton "b" [7], AList.singleton "a" [1]⟩ : MapStorage).byKind
        TokenType).lookup id2 :=
  ⟨Or.inl rfl,
    MapStorage.set_frame ⟨AList.singleton "b" [7], AList.singleton "a" [1]⟩ "a" [2] TokenType
      (Or.inl rfl)⟩

/-! ## BoltStorage -/

/-- C3 (as the code has it): on a database that already contains the top bucket
"topBucket", `NewBoltStorage` returns no storage and the error "failed to create
bucket topBucket: bucket already exists", and the transaction is rolled back, so
the buckets and their contents are unchanged. -/
theorem NewBoltStorage_existing_top_fails (db : BoltDB) (top : TopBucket)
    (h : txBucket db "topBucket" = some top) :
    NewBoltStorage db =
      Run.done (none,
        some (StorageError.createTopFailed "topBucket" BoltError.bucketExists), db) := by
  have hlen : ¬ goLen "topBucket" = 0 := by decide
  unfold txBucket at h
  simp only [NewBoltStorage, dbUpdate, createBuckets, txCreateBucket, if_neg hlen, h]

/-- Witness of C3: a database with the top bucket and both sub-buckets, holding one
token and one lease. -/
theorem NewBoltStorage_existing_top_fails_witness :
    txBucket initialisedDB "topBucket" =
      some (((∅ : TopBucket).insert "token" ((∅ : LeafBucket).insert "t1" [1])).insert "lease"
        ((∅ : LeafBucket).insert "l1" [2])) ∧
    NewBoltStorage initialisedDB =
      Run.done (none,
        some (StorageError.createTopFailed "topBucket" BoltError.bucketExists),
        initialisedDB) :=
  ⟨by decide,
    NewBoltStorage_existing_top_fails initialisedDB
      (((∅ : TopBucket).insert "token" ((∅ : LeafBucket).insert "t1" [1])).insert "lease"
        ((∅ : LeafBucket).insert "l1" [2])) (by decide)⟩

/-- C3 as stated fails: `NewBoltStorage` on a new file succeeds and leaves the top
bucket with its "token" and "lease" sub-buckets, and `NewBoltStorage` on the file it
left returns an error. -/
theorem NewBoltStorage_not_idempotent :
    NewBoltStorage ∅ =
      Run.done (some { db := freshDB, topBucket := "topBucket" }, none, freshDB) ∧
    (∃ top : TopBucket, txBucket freshDB "topBucket" = some top ∧
      bucketBucket top TokenType = some ∅ ∧ bucketBucket top LeaseType = some ∅) ∧
    ∃ err : StorageError, NewBoltStorage freshDB = Run.done (none, some err, freshDB) :=
  ⟨by decide,
    ⟨((∅ : TopBucket).insert "token" ∅).insert "lease" ∅, by decide, by decide, by decide⟩,
    ⟨StorageError.createTopFailed "topBucket" BoltError.bucketExists, by decide⟩⟩

/-- C6: when the top bucket and its "token" and "lease" sub-buckets exist,
`BoltStorage.Delete` returns nil for every id, present or not; afterwards both
sub-buckets still exist, the id is a key of neither, and every other key keeps its
value in both. -/
theorem BoltStorage.delete_removes (b : BoltStorage) (id : String) (tok lea : LeafBucket)
    (ht : b.subBucket TokenType = some tok) (hl : b.subBucket LeaseType = some lea) :
    ∃ b1 : BoltStorage, b.Delete id = Run.done (none, b1) ∧
      b1.topBucket = b.topBucket ∧
      ∃ tok1 lea1 : LeafBucket,
        b1.subBucket TokenType = some tok1 ∧ b1.subBucket LeaseType = some lea1 ∧
        id ∉ tok1 ∧ id ∉ lea1 ∧
        ∀ key : String, key ≠ id →
          tok1.lookup key = tok.lookup key ∧ lea1.lookup key = lea.lookup key := by
  have hne : LeaseType ≠ TokenType := by decide
  unfold BoltStorage.subBucket txBucket bucketBucket at ht hl
  cases htop : b.db.lookup b.topBucket with
  | none => rw [htop] at ht; exact absurd ht (by simp)
  | some top =>
    rw [htop] at ht hl
    simp only at ht hl
    have hl1 : (top.insert TokenType (tok.erase id)).lookup LeaseType = some lea := by
      rw [AList.lookup_insert_ne hne]; exact hl
    refine ⟨⟨b.db.insert b.topBucket
        ((top.insert TokenType (tok.erase id)).insert LeaseType (lea.erase id)), b.topBucket⟩,
      ?_, rfl,
      tok.erase id, lea.erase id, ?_, ?_, ?_, ?_, ?_⟩
    · simp only [BoltStorage.Delete, dbUpdate, txBucket, bucketBucket, bucketDelete, htop, ht,
        hl1]
    · simp only [BoltStorage.subBucket, txBucket, bucketBucket, AList.lookup_insert]
      rw [AList.lookup_insert_ne hne.symm, AList.lookup_insert]
    · simp only [BoltStorage.subBucket, txBucket, bucketBucket, AList.lookup_insert]
    · exact fun h => (AList.mem_erase.mp h).1 rfl
    · exact fun h => (AList.mem_erase.mp h).1 rfl
    · exact fun key hkey => ⟨AList.lookup_erase_ne hkey, AList.lookup_erase_ne hkey⟩

/-- Witness of C6: deleting the stored token "t1" from a database that holds one
token and one lease. -/
theorem BoltStorage.delete_removes_witness :
    (⟨initialisedDB, "topBucket"⟩ : BoltStorage).subBucket TokenType =
      some ((∅ : LeafBucket).insert "t1" [1]) ∧
    (⟨initialisedDB, "topBucket"⟩ : BoltStorage).subBucket LeaseType =
      some ((∅ : LeafBucket).insert "l1" [2]) ∧
    ∃ b1 : BoltStorage,
      (⟨initialisedDB, "topBucket"⟩ : BoltStorage).Delete "t1" = Run.done (none, b1) ∧
      b1.topBucket = "topBucket" ∧
      ∃ tok1 lea1 : LeafBucket,
        b1.subBucket TokenType = some tok1 ∧ b1.subBucket LeaseType = some lea1 ∧
        "t1" ∉ tok1 ∧ "t1" ∉ lea1 ∧
        ∀ key : String, key ≠ "t1" →
          tok1.lookup key = ((∅ : LeafBucket).insert "t1" [1]).lookup key ∧
          lea1.lookup key = ((∅ : LeafBucket).insert "l1" [2]).lookup key :=
  ⟨by decide, by decide,
    BoltStorage.delete_removes ⟨initialisedDB, "topBucket"⟩ "t1"
      ((∅ : LeafBucket).insert "t1" [1]) ((∅ : LeafBucket).insert "l1" [2])
      (by decide) (by decide)⟩


/-! ## Namespace derivation -/

open cache

/-- When no suffix of the segments is a revocation verb, the search finds none. -/
theorem findRevocation_none (segs : List (List Char)) :
    ∀ pre : List (List Char),
      (∀ p v : List (List Char), segs = p ++ v → isRevocationVerb v = false) →
      findRevocation pre segs = none := by
  induction segs with
  | nil =>
    intro pre h
    have h0 := h [] [] rfl
    unfold findRevocation
    simp [h0]
  | cons seg rest ih =>
    intro pre h
    have h0 := h [] (seg :: rest) rfl
    unfold findRevocation
    simp only [h0, Bool.false_eq_true, if_false]
    exact ih (pre ++ [seg]) (fun p v hpv => h (seg :: p) v (by rw [hpv]; rfl))

/-- The header namespace ends in a slash. -/
theorem normaliseNamespace_ends_in_slash (hdr : String) :
    (normaliseNamespace hdr).toList.getLast? = some '/' := by
  unfold normaliseNamespace
  by_cases h0 : hdr = ""
  · rw [if_pos h0]; decide
  · rw [if_neg h0]
    by_cases h1 : hdr.toList.getLast? = some '/'
    · rw [if_pos h1]; exact h1
    · rw [if_neg h1]
      show (hdr.data ++ ['/']).getLast? = some '/'
      simp

/-- C8: when no suffix of the path after "/v1/" is a revocation verb,
`deriveNamespaceAndRevocationPath` returns the original path unchanged and, as
namespace, the value of the header X-Vault-Namespace made to end in "/": "root/"
when the header is absent or empty, the value itself when it ends in "/", the
value followed by "/" otherwise. The two rows of the test table are instances. -/
theorem deriveNamespaceAndRevocationPath_non_revocation (req : SendRequest)
    (h : ∀ p v : List (List Char),
      (stripVersion req.Path.toList).splitOn '/' = p ++ v → isRevocationVerb v = false) :
    (deriveNamespaceAndRevocationPath req).2 = req.Path ∧
    (deriveNamespaceAndRevocationPath req).1 =
      normaliseNamespace (headerGet req.Header NamespaceHeaderName) ∧
    (deriveNamespaceAndRevocationPath req).1.toList.getLast? = some '/' ∧
    (req.Header.lookup NamespaceHeaderName = none →
      (deriveNamespaceAndRevocationPath req).1 = "root/") ∧
    (headerGet req.Header NamespaceHeaderName = "" →
      (deriveNamespaceAndRevocationPath req).1 = "root/") ∧
    ((headerGet req.Header NamespaceHeaderName).toList.getLast? = some '/' →
      (deriveNamespaceAndRevocationPath req).1 = headerGet req.Header NamespaceHeaderName) ∧
    (headerGet req.Header NamespaceHeaderName ≠ "" →
      (headerGet req.Header NamespaceHeaderName).toList.getLast? ≠ some '/' →
      (deriveNamespaceAndRevocationPath req).1 =
        headerGet req.Header NamespaceHeaderName ++ "/") ∧
    deriveNamespaceAndRevocationPath
        ⟨"", "GET", "", "/v1/ns2/sys/mounts", [("X-Vault-Namespace", "ns1/")], []⟩ =
      ("ns1/", "/v1/ns2/sys/mounts") ∧
    deriveNamespaceAndRevocationPath ⟨"", "GET", "", "/v1/ns1/sys/mounts", [], []⟩ =
      ("root/", "/v1/ns1/sys/mounts") := by
  have hfind := findRevocation_none _ [] h
  have hres : deriveNamespaceAndRevocationPath req =
      (normaliseNamespace (headerGet req.Header NamespaceHeaderName), req.Path) := by
    unfold deriveNamespaceAndRevocationPath
    simp only [hfind]
  refine ⟨by rw [hres], by rw [hres], ?_, ?_, ?_, ?_, ?_, by decide, by decide⟩
  · rw [hres]; exact normaliseNamespace_ends_in_slash _
  · intro habs
    rw [hres]
    simp only [headerGet, habs, normaliseNamespace, if_true]
  · intro hempty
    rw [hres]
    simp only [hempty, normaliseNamespace, if_true]
  · intro hlast
    rw [hres]
    show normaliseNamespace _ = _
    unfold normaliseNamespace
    by_cases h0 : headerGet req.Header NamespaceHeaderName = ""
    · rw [h0] at hlast; exact absurd hlast (by decide)
    · rw [if_neg h0, if_pos hlast]
  · intro h0 hlast
    rw [hres]
    show normaliseNamespace _ = _
    unfold normaliseNamespace
    rw [if_neg h0, if_neg hlast]

/-- A list of segments none of whose tails is a revocation verb has no revocation
verb as suffix. -/
theorem no_verb_suffix_of_tails (segs : List (List Char))
    (h : ∀ v ∈ segs.tails, isRevocationVerb v = false) :
    ∀ p v : List (List Char), segs = p ++ v → isRevocationVerb v = false :=
  fun p v hpv => h v ((List.mem_tails v segs).mpr ⟨p, hpv.symm⟩)

/-- Witness of C8: the path "/v1/ns2/sys/mounts" with the header "ns1". -/
theorem deriveNamespaceAndRevocationPath_non_revocation_witness :
    (deriveNamespaceAndRevocationPath
      ⟨"", "GET", "", "/v1/ns2/sys/mounts", [("X-Vault-Namespace", "ns1")], []⟩).2 =
      "/v1/ns2/sys/mounts" ∧
    (deriveNamespaceAndRevocationPath
      ⟨"", "GET", "", "/v1/ns2/sys/mounts", [("X-Vault-Namespace", "ns1")], []⟩).1 =
      "ns1/" :=
  have key := deriveNamespaceAndRevocationPath_non_revocation
    ⟨"", "GET", "", "/v1/ns2/sys/mounts", [("X-Vault-Namespace", "ns1")], []⟩
    (no_verb_suffix_of_tails _ (by decide))
  ⟨key.1, key.2.2.2.2.2.2.1 (by decide) (by decide)⟩

/-- Namespace segments followed by further segments: the path is the namespace
followed by the path of the further segments. -/
theorem intercalate_append_eq (pre verb : List (List Char)) (hverb : verb ≠ []) :
    ['/'].intercalate (pre ++ verb) = joinNamespace pre ++ ['/'].intercalate verb := by
  induction pre with
  | nil => simp [joinNamespace]
  | cons seg rest ih =>
    obtain ⟨b, l, hbl⟩ : ∃ b l, rest ++ verb = b :: l := by
      cases hrv : rest ++ verb with
      | nil => exact absurd (List.append_eq_nil.mp hrv).2 hverb
      | cons b l => exact ⟨b, l, rfl⟩
    have hstep : ['/'].intercalate (seg :: (rest ++ verb)) =
        seg ++ ['/'] ++ ['/'].intercalate (rest ++ verb) := by
      rw [hbl]
      simp [List.intercalate, List.intersperse]
    rw [List.cons_append, hstep, ih]
    simp [joinNamespace]

/-- Splitting at the slash that ends a first segment. -/
theorem splitOn_segment (seg rest : List Char) (h : '/' ∉ seg) :
    (seg ++ '/' :: rest).splitOn '/' = seg :: rest.splitOn '/' := by
  unfold List.splitOn
  refine List.splitOnP_first (fun c => c == '/') seg ?_ '/' (by simp) rest
  intro c hc hp
  rw [eq_of_beq hp] at hc
  exact h hc

/-- The segments of a namespace followed by a path are the namespace segments
followed by the segments of the path. -/
theorem splitOn_joinNamespace (pre : List (List Char)) (hpre : ∀ seg ∈ pre, '/' ∉ seg)
    (t : List Char) : (joinNamespace pre ++ t).splitOn '/' = pre ++ t.splitOn '/' := by
  induction pre with
  | nil => simp [joinNamespace]
  | cons seg rest ih =>
    have hstep : joinNamespace (seg :: rest) ++ t = seg ++ '/' :: (joinNamespace rest ++ t) := by
      simp [joinNamespace]
    rw [hstep, splitOn_segment seg _ (hpre seg (List.mem_cons_self seg rest)),
      ih (fun s hs => hpre s (List.mem_cons_of_mem seg hs))]
    rfl

/-- The segments of a revocation verb path are recognised as a revocation verb. -/
theorem isRevocationVerb_of_path (t : List Char) (h : RevocationPath t) :
    isRevocationVerb (t.splitOn '/') = true := by
  rcases h with rfl | rfl | ⟨x, rfl⟩ | ⟨x, rfl⟩
  · decide
  · decide
  · have hform : "sys/leases/revoke-prefix/".toList ++ x =
        "sys".toList ++ '/' :: ("leases".toList ++ '/' :: ("revoke-prefix".toList ++ '/' :: x)) :=
      rfl
    rw [hform, splitOn_segment _ _ (by decide), splitOn_segment _ _ (by decide),
      splitOn_segment _ _ (by decide)]
    cases hx : x.splitOn '/' with
    | nil => exact absurd hx (List.splitOnP_ne_nil _ x)
    | cons d ds => rfl
  · have hform : "sys/leases/revoke-force/".toList ++ x =
        "sys".toList ++ '/' :: ("leases".toList ++ '/' :: ("revoke-force".toList ++ '/' :: x)) :=
      rfl
    rw [hform, splitOn_segment _ _ (by decide), splitOn_segment _ _ (by decide),
      splitOn_segment _ _ (by decide)]
    cases hx : x.splitOn '/' with
    | nil => exact absurd hx (List.splitOnP_ne_nil _ x)
    | cons d ds => rfl

/-- Segments recognised as a revocation verb spell a revocation verb path. -/
theorem path_of_isRevocationVerb (segs : List (List Char))
    (h : isRevocationVerb segs = true) : RevocationPath (['/'].intercalate segs) := by
  match segs, h with
  | [a, b, c], hv =>
    simp only [isRevocationVerb, Bool.and_eq_true, Bool.or_eq_true, beq_iff_eq] at hv
    obtain ⟨⟨ha, hb⟩, hc⟩ := hv
    subst ha hb
    rcases hc with rfl | rfl
    · exact Or.inl (by decide)
    · exact Or.inr (Or.inl (by decide))
  | a :: b :: c :: d :: ds, hv =>
    simp only [isRevocationVerb, Bool.and_eq_true, Bool.or_eq_true, beq_iff_eq] at hv
    obtain ⟨⟨ha, hb⟩, hc⟩ := hv
    subst ha hb
    have hcat : ∀ c2 : List Char,
        ['/'].intercalate ("sys".toList :: "leases".toList :: c2 :: d :: ds) =
          "sys/leases/".toList ++ (c2 ++ '/' :: ['/'].intercalate (d :: ds)) := by
      intro c2
      simp [List.intercalate, List.intersperse]
    rw [hcat]
    rcases hc with rfl | rfl
    · exact Or.inr (Or.inr (Or.inl ⟨_, rfl⟩))
    · exact Or.inr (Or.inr (Or.inr ⟨_, rfl⟩))

/-- The search stops at the first segment from which the rest is a revocation verb:
when the segments end in a revocation verb and none begins earlier, it returns the
segments before the verb. -/
theorem findRevocation_first (pre verb : List (List Char))
    (hverb : isRevocationVerb verb = true) :
    (∀ p1 p2 : List (List Char), pre = p1 ++ p2 → p2 ≠ [] →
      isRevocationVerb (p2 ++ verb) = false) →
    ∀ acc : List (List Char), findRevocation acc (pre ++ verb) = some (acc ++ pre, verb) := by
  induction pre with
  | nil =>
    intro _ acc
    unfold findRevocation
    simp [hverb]
  | cons seg rest ih =>
    intro hfirst acc
    have hno := hfirst [] (seg :: rest) rfl (List.cons_ne_nil seg rest)
    rw [List.cons_append] at hno ⊢
    unfold findRevocation
    simp only [hno, Bool.false_eq_true, if_false]
    rw [ih (fun p1 p2 h12 h2 => hfirst (seg :: p1) p2 (by rw [h12]; rfl) h2) (acc ++ [seg])]
    simp

/-- No revocation verb path begins at an earlier segment of the namespace when the
segments say so for every non-empty tail. -/
theorem no_earlier_verb_of_tails (pre : List (List Char)) (t : List Char)
    (h : ∀ p2 ∈ pre.tails, p2 ≠ [] →
      isRevocationVerb ((joinNamespace p2 ++ t).splitOn '/') = false) :
    ∀ p1 p2 : List (List Char), pre = p1 ++ p2 → p2 ≠ [] →
      ¬ RevocationPath (joinNamespace p2 ++ t) := by
  intro p1 p2 h12 h2 hpath
  have hfalse := h p2 ((List.mem_tails p2 pre).mpr ⟨p1, h12.symm⟩) h2
  rw [isRevocationVerb_of_path _ hpath] at hfalse
  exact Bool.noConfusion hfalse

/-- C9 (as the model has it): for a path "/v1/" + P + S, where P is a sequence of
namespace segments, each followed by "/", S is a revocation verb path
(sys/leases/revoke, sys/leases/revoke-self, sys/leases/revoke-prefix/x or
sys/leases/revoke-force/x, for any x), and no revocation verb path begins at an
earlier segment, that is at a segment of P, `deriveNamespaceAndRevocationPath`
returns the relative path "/v1/" + S and, as namespace, the header namespace with P
appended: P alone when no header is set and P is not empty, the header namespace
alone when P is empty. The rows of the test table are instances, and so is a lease
prefix of several segments. -/
theorem deriveNamespaceAndRevocationPath_revocation (req : SendRequest)
    (pre : List (List Char)) (S : List Char)
    (hpre : ∀ seg ∈ pre, '/' ∉ seg)
    (hS : RevocationPath S)
    (hfirst : ∀ p1 p2 : List (List Char), pre = p1 ++ p2 → p2 ≠ [] →
      ¬ RevocationPath (joinNamespace p2 ++ S))
    (hpath : req.Path = String.mk ("/v1/".toList ++ (joinNamespace pre ++ S))) :
    (deriveNamespaceAndRevocationPath req).2 = String.mk ("/v1/".toList ++ S) ∧
    (headerGet req.Header NamespaceHeaderName ≠ "" →
      (deriveNamespaceAndRevocationPath req).1 =
        normaliseNamespace (headerGet req.Header NamespaceHeaderName) ++
          String.mk (joinNamespace pre)) ∧
    (headerGet req.Header NamespaceHeaderName = "" → pre ≠ [] →
      (deriveNamespaceAndRevocationPath req).1 = String.mk (joinNamespace pre)) ∧
    (pre = [] →
      (deriveNamespaceAndRevocationPath req).1 =
        normaliseNamespace (headerGet req.Header NamespaceHeaderName)) ∧
    deriveNamespaceAndRevocationPath
        ⟨"", "PUT", "", "/v1/ns2/sys/leases/revoke", [("X-Vault-Namespace", "ns1/")], []⟩ =
      ("ns1/ns2/", "/v1/sys/leases/revoke") ∧
    deriveNamespaceAndRevocationPath
        ⟨"", "PUT", "", "/v1/ns1/sys/leases/revoke-prefix/foo", [], []⟩ =
      ("ns1/", "/v1/sys/leases/revoke-prefix/foo") ∧
    deriveNamespaceAndRevocationPath
        ⟨"", "PUT", "", "/v1/ns1/sys/leases/revoke-prefix/aws/creds", [], []⟩ =
      ("ns1/", "/v1/sys/leases/revoke-prefix/aws/creds") := by
  have hverb : isRevocationVerb (S.splitOn '/') = true := isRevocationVerb_of_path S hS
  have hne : S.splitOn '/' ≠ [] := List.splitOnP_ne_nil _ S
  have hjoin : ['/'].intercalate (S.splitOn '/') = S := List.intercalate_splitOn S '/'
  have hsplit : (stripVersion req.Path.toList).splitOn '/' = pre ++ S.splitOn '/' := by
    rw [hpath]
    exact splitOn_joinNamespace pre hpre S
  have hearlier : ∀ p1 p2 : List (List Char), pre = p1 ++ p2 → p2 ≠ [] →
      isRevocationVerb (p2 ++ S.splitOn '/') = false := by
    intro p1 p2 h12 h2
    cases hcase : isRevocationVerb (p2 ++ S.splitOn '/') with
    | false => rfl
    | true =>
      have hp := path_of_isRevocationVerb _ hcase
      rw [intercalate_append_eq p2 _ hne, hjoin] at hp
      exact absurd hp (hfirst p1 p2 h12 h2)
  have hfind := findRevocation_first pre (S.splitOn '/') hverb hearlier []
  rw [List.nil_append] at hfind
  have hres : deriveNamespaceAndRevocationPath req =
      (if pre = [] then normaliseNamespace (headerGet req.Header NamespaceHeaderName)
        else if headerGet req.Header NamespaceHeaderName = "" then String.mk (joinNamespace pre)
        else normaliseNamespace (headerGet req.Header NamespaceHeaderName) ++
          String.mk (joinNamespace pre),
       "/v1/" ++ String.mk S) := by
    unfold deriveNamespaceAndRevocationPath
    simp only [hsplit, hfind, hjoin]
  refine ⟨?_, ?_, ?_, ?_, by decide, by decide, by decide⟩
  · rw [hres]; rfl
  · intro hhdr
    rw [hres]
    by_cases hp : pre = []
    · subst hp
      simp only [if_true]
      show _ = _ ++ ""
      rw [String.append_empty]
    · simp only [if_neg hp, if_neg hhdr]
  · intro hhdr hp
    rw [hres]
    simp only [if_neg hp, if_pos hhdr]
  · intro hp
    rw [hres]
    simp only [if_pos hp]

/-- Witness of C9: the path "/v1/ns2/sys/leases/revoke-force/aws/creds" with the
header "ns1". -/
theorem deriveNamespaceAndRevocationPath_revocation_witness :
    (deriveNamespaceAndRevocationPath
      ⟨"", "PUT", "", "/v1/ns2/sys/leases/revoke-force/aws/creds",
        [("X-Vault-Namespace", "ns1")], []⟩).2 = "/v1/sys/leases/revoke-force/aws/creds" ∧
    (deriveNamespaceAndRevocationPath
      ⟨"", "PUT", "", "/v1/ns2/sys/leases/revoke-force/aws/creds",
        [("X-Vault-Namespace", "ns1")], []⟩).1 = "ns1/ns2/" :=
  have key := deriveNamespaceAndRevocationPath_revocation
    ⟨"", "PUT", "", "/v1/ns2/sys/leases/revoke-force/aws/creds",
      [("X-Vault-Namespace", "ns1")], []⟩
    ["ns2".toList] "sys/leases/revoke-force/aws/creds".toList
    (by decide)
    (Or.inr (Or.inr (Or.inr ⟨"aws/creds".toList, rfl⟩)))
    (no_earlier_verb_of_tails _ _ (by decide))
    (by decide)
  ⟨key.1.trans (by decide), (key.2.1 (by decide)).trans (by decide)⟩

/-- C9 as stated fails: the path "/v1/sys/leases/revoke-prefix/a/sys/leases/revoke"
has the form "/v1/" + P + S with P the segments sys, leases, revoke-prefix, a and S
the verb path sys/leases/revoke, for which the claim wants the relative path
"/v1/sys/leases/revoke" and a namespace ending in "sys/leases/revoke-prefix/a/". It
also has that form with P empty and S the verb path sys/leases/revoke-prefix/x, x
being a/sys/leases/revoke, which is what the function returns: the whole path,
with the namespace "root/". -/
theorem deriveNamespaceAndRevocationPath_revocation_two_forms :
    RevocationPath "sys/leases/revoke".toList ∧
    RevocationPath "sys/leases/revoke-prefix/a/sys/leases/revoke".toList ∧
    (∀ seg ∈ ["sys".toList, "leases".toList, "revoke-prefix".toList, "a".toList],
      '/' ∉ seg) ∧
    "/v1/sys/leases/revoke-prefix/a/sys/leases/revoke" =
      String.mk ("/v1/".toList ++
        (joinNamespace ["sys".toList, "leases".toList, "revoke-prefix".toList, "a".toList] ++
          "sys/leases/revoke".toList)) ∧
    deriveNamespaceAndRevocationPath
        ⟨"", "PUT", "", "/v1/sys/leases/revoke-prefix/a/sys/leases/revoke", [], []⟩ =
      ("root/", "/v1/sys/leases/revoke-prefix/a/sys/leases/revoke") ∧
    (deriveNamespaceAndRevocationPath
        ⟨"", "PUT", "", "/v1/sys/leases/revoke-prefix/a/sys/leases/revoke", [], []⟩).2 ≠
      String.mk ("/v1/".toList ++ "sys/leases/revoke".toList) ∧
    (deriveNamespaceAndRevocationPath
        ⟨"", "PUT", "", "/v1/sys/leases/revoke-prefix/a/sys/leases/revoke", [], []⟩).1 ≠
      String.mk
        (joinNamespace ["sys".toList, "leases".toList, "revoke-prefix".toList, "a".toList]) :=
  ⟨Or.inl rfl, Or.inr (Or.inr (Or.inl ⟨"a/sys/leases/revoke".toList, rfl⟩)), by decide,
    by decide, by decide, by decide, by decide⟩

/-- No function of the path returns, for every path "/v1/" + P + S with S a
revocation verb path, the relative path "/v1/" + S: the two forms of one path ask
for two answers. -/
theorem no_function_meets_both_forms (f : List Char → List Char) :
    ¬ ∀ (pre : List (List Char)) (S : List Char), (∀ seg ∈ pre, '/' ∉ seg) → RevocationPath S →
      f ("/v1/".toList ++ (joinNamespace pre ++ S)) = "/v1/".toList ++ S := by
  intro h
  have h1 := h [] "sys/leases/revoke-prefix/a/sys/leases/revoke".toList
    (fun _ hs => absurd hs (List.not_mem_nil _))
    (Or.inr (Or.inr (Or.inl ⟨"a/sys/leases/revoke".toList, rfl⟩)))
  have h2 := h ["sys".toList, "leases".toList, "revoke-prefix".toList, "a".toList]
    "sys/leases/revoke".toList (by decide) (Or.inl rfl)
  have hsame : "/v1/".toList ++
      (joinNamespace ["sys".toList, "leases".toList, "revoke-prefix".toList, "a".toList] ++
        "sys/leases/revoke".toList) =
      "/v1/".toList ++
        (joinNamespace [] ++ "sys/leases/revoke-prefix/a/sys/leases/revoke".toList) := by
    decide
  rw [hsame, h1] at h2
  exact absurd h2 (by decide)

/-! ## Send -/

/-- C10: when `Send` misses for a request and the Proxier returns a response with
status below 400 that is classified cacheable, a `Send` that follows at once, for a
request with the same token, method, URL and body, returns the stored response
without error, whatever the Proxier would return and without consulting it, issues
no write to the persistence backend, and leaves the lease cache unchanged. -/
theorem LeaseCache.send_hit_after_cacheable_miss (ext : Collaborators) (lc : LeaseCache)
    (req req2 : SendRequest) (resp : SendResponse) (proxied2 : Except String SendResponse)
    (hmiss : lc.db.lookup (computeIndexID ext req) = none)
    (hstatus : resp.StatusCode < 400)
    (hcacheable : cacheable ext lc req resp)
    (hToken : req2.Token = req.Token) (hMethod : req2.Method = req.Method)
    (hURL : req2.URL = req.URL) (hBody : req2.Body = req.Body) :
    (lc.Send ext req (Except.ok resp)).consulted = true ∧
    (lc.Send ext req (Except.ok resp)).resp = some resp ∧
    ((lc.Send ext req (Except.ok resp)).lc.Send ext req2 proxied2).resp = some resp ∧
    ((lc.Send ext req (Except.ok resp)).lc.Send ext req2 proxied2).err = none ∧
    ((lc.Send ext req (Except.ok resp)).lc.Send ext req2 proxied2).consulted = false ∧
    ((lc.Send ext req (Except.ok resp)).lc.Send ext req2 proxied2).persisted = none ∧
    ((lc.Send ext req (Except.ok resp)).lc.Send ext req2 proxied2).lc.db =
      (lc.Send ext req (Except.ok resp)).lc.db ∧
    ((lc.Send ext req (Except.ok resp)).lc.Send ext req2 proxied2).lc.autoAuthTokens =
      (lc.Send ext req (Except.ok resp)).lc.autoAuthTokens := by
  have hid : computeIndexID ext req2 = computeIndexID ext req := by
    simp only [computeIndexID, hToken, hMethod, hURL, hBody]
  have hnot : ¬ resp.StatusCode ≥ 400 := Nat.not_le.mpr hstatus
  obtain ⟨secret, hparse, hclass⟩ := hcacheable
  -- the first Send caches an entry under the fingerprint, holding the response
  have hfirst : ∃ (entry : CacheEntry) (kind : IndexType), entry.Response = resp ∧
      entry.ID = computeIndexID ext req ∧
      lc.Send ext req (Except.ok resp) = cacheEntry ext lc entry kind := by
    by_cases htok : secret.ClientToken ≠ ""
    · refine ⟨{ baseEntry ext req resp with
          Token := secret.ClientToken
          TokenAccessor := secret.Accessor
          TokenParent := req.Token
          RenewCtxInfo := secret.AuthRenewable }, TokenType, rfl, rfl, ?_⟩
      simp only [LeaseCache.Send, hmiss, if_neg hnot, hparse, if_pos htok]
    · rcases hclass with hc | ⟨hlease, hreg⟩
      · exact absurd hc htok
      · refine ⟨{ baseEntry ext req resp with
            Lease := secret.LeaseID
            LeaseToken := req.Token
            RenewCtxInfo := secret.Renewable }, LeaseType, rfl, rfl, ?_⟩
        simp only [LeaseCache.Send, hmiss, if_neg hnot, hparse, if_neg htok, if_pos hlease,
          if_pos hreg]
  have hsecond : ∀ (entry : CacheEntry) (kind : IndexType), entry.Response = resp →
      entry.ID = computeIndexID ext req →
      lc.Send ext req (Except.ok resp) = cacheEntry ext lc entry kind →
      (lc.Send ext req (Except.ok resp)).consulted = true ∧
      (lc.Send ext req (Except.ok resp)).resp = some resp ∧
      ((lc.Send ext req (Except.ok resp)).lc.Send ext req2 proxied2).resp = some resp ∧
      ((lc.Send ext req (Except.ok resp)).lc.Send ext req2 proxied2).err = none ∧
      ((lc.Send ext req (Except.ok resp)).lc.Send ext req2 proxied2).consulted = false ∧
      ((lc.Send ext req (Except.ok resp)).lc.Send ext req2 proxied2).persisted = none ∧
      ((lc.Send ext req (Except.ok resp)).lc.Send ext req2 proxied2).lc.db =
        (lc.Send ext req (Except.ok resp)).lc.db ∧
      ((lc.Send ext req (Except.ok resp)).lc.Send ext req2 proxied2).lc.autoAuthTokens =
        (lc.Send ext req (Except.ok resp)).lc.autoAuthTokens := by
    intro entry kind hresp hentry heq
    rw [heq]
    have hlook : (cacheEntry ext lc entry kind).lc.db.lookup (computeIndexID ext req2) =
        some entry := by
      rw [hid, ← hentry]
      exact AList.lookup_insert _
    have hsend : (cacheEntry ext lc entry kind).lc.Send ext req2 proxied2 =
        { resp := some entry.Response, err := none, consulted := false, persisted := none,
          lc := (cacheEntry ext lc entry kind).lc } := by
      simp only [LeaseCache.Send, hlook]
    rw [hsend]
    exact ⟨rfl, by rw [← hresp]; rfl, by rw [hresp], rfl, rfl, rfl, rfl, rfl⟩
  obtain ⟨entry, kind, hresp, hentry, heq⟩ := hfirst
  exact hsecond entry kind hresp hentry heq

/-- Witness of C10: the first scenario of the tests: a 201 response carrying a
token is cached, and the repeated request is served from the cache. -/
theorem LeaseCache.send_hit_after_cacheable_miss_witness :
    ((exampleLeaseCache.Send exampleCollaborators exampleRequest
        (Except.ok ⟨201, [1]⟩)).lc.Send exampleCollaborators exampleRequest
        (Except.error "not consulted")).resp = some ⟨201, [1]⟩ ∧
    ((exampleLeaseCache.Send exampleCollaborators exampleRequest
        (Except.ok ⟨201, [1]⟩)).lc.Send exampleCollaborators exampleRequest
        (Except.error "not consulted")).consulted = false :=
  have key := LeaseCache.send_hit_after_cacheable_miss exampleCollaborators exampleLeaseCache
    exampleRequest exampleRequest ⟨201, [1]⟩ (Except.error "not consulted")
    (AList.lookup_empty _) (by decide) ⟨⟨"testtoken", "", true, "", false⟩, rfl, Or.inl (by decide)⟩
    rfl rfl rfl rfl
  ⟨key.2.2.1, key.2.2.2.2.1⟩

/-! ## MapStorage: validation of the kind, deletion on disjoint maps -/

/-- C12: `MapStorage.Set` and `MapStorage.GetByType` return an error exactly when
the kind is neither "lease" nor "token"; when `Set` returns an error both maps are
unchanged, and when `GetByType` returns an error its slice is nil. -/
theorem MapStorage.kind_is_validated (seed : Nat) (ms : MapStorage) (id : String)
    (blob : Blob) (kind : IndexType) :
    ((ms.Set id blob kind).1 ≠ none ↔ (kind ≠ "lease" ∧ kind ≠ "token")) ∧
    ((ms.GetByType seed kind).2.1 ≠ none ↔ (kind ≠ "lease" ∧ kind ≠ "token")) ∧
    ((ms.Set id blob kind).1 ≠ none → (ms.Set id blob kind).2 = ms) ∧
    ((ms.GetByType seed kind).2.1 ≠ none → (ms.GetByType seed kind).1 = none) := by
  by_cases h1 : kind = LeaseType
  · have hset : ms.Set id blob kind = (none, { ms with leases := ms.leases.insert id blob }) := by
      simp only [MapStorage.Set, if_pos h1]
    have hget : ms.GetByType seed kind = (some (appendValues seed ms.leases []), none, ms) := by
      simp only [MapStorage.GetByType, if_pos h1]
    rw [hset, hget]
    refine ⟨⟨fun h => absurd rfl h, fun h => absurd h1 h.1⟩,
      ⟨fun h => absurd rfl h, fun h => absurd h1 h.1⟩, fun h => absurd rfl h,
      fun h => absurd rfl h⟩
  · by_cases h2 : kind = TokenType
    · have hset : ms.Set id blob kind =
          (none, { ms with tokens := ms.tokens.insert id blob }) := by
        simp only [MapStorage.Set, if_neg h1, if_pos h2]
      have hget : ms.GetByType seed kind =
          (some (appendValues seed ms.tokens []), none, ms) := by
        simp only [MapStorage.GetByType, if_neg h1, if_pos h2]
      rw [hset, hget]
      refine ⟨⟨fun h => absurd rfl h, fun h => absurd h2 h.2⟩,
        ⟨fun h => absurd rfl h, fun h => absurd h2 h.2⟩, fun h => absurd rfl h,
        fun h => absurd rfl h⟩
    · have hset : ms.Set id blob kind = (some (StorageError.unknownIndexType kind), ms) := by
        simp only [MapStorage.Set, if_neg h1, if_neg h2]
      have hget : ms.GetByType seed kind =
          (none, some (StorageError.unknownIndexType kind), ms) := by
        simp only [MapStorage.GetByType, if_neg h1, if_neg h2]
      rw [hset, hget]
      exact ⟨⟨fun _ => ⟨h1, h2⟩, fun _ => by simp⟩, ⟨fun _ => ⟨h1, h2⟩, fun _ => by simp⟩,
        fun _ => rfl, fun _ => rfl⟩

/-- C13: when no id is a key of both maps, `MapStorage.Delete` returns nil exactly
when the id is a key of one of the maps; on success the id is a key of neither map
and every other id keeps its blob in its map; on error both maps are unchanged. -/
theorem MapStorage.delete_on_disjoint (ms : MapStorage) (id : String)
    (hdisj : ∀ key : String, ¬ (key ∈ ms.tokens ∧ key ∈ ms.leases)) :
    ((ms.Delete id).1 = none ↔ (id ∈ ms.tokens ∨ id ∈ ms.leases)) ∧
    ((ms.Delete id).1 = none →
      id ∉ (ms.Delete id).2.tokens ∧ id ∉ (ms.Delete id).2.leases ∧
      ∀ key : String, key ≠ id →
        (ms.Delete id).2.tokens.lookup key = ms.tokens.lookup key ∧
        (ms.Delete id).2.leases.lookup key = ms.leases.lookup key) ∧
    ((ms.Delete id).1 ≠ none → (ms.Delete id).2 = ms) := by
  cases hl : ms.leases.lookup id with
  | some blob =>
    have hmem : id ∈ ms.leases := AList.lookup_isSome.mp (by rw [hl]; rfl)
    have htok : id ∉ ms.tokens := fun h => hdisj id ⟨h, hmem⟩
    have hres : ms.Delete id = (none, { ms with leases := ms.leases.erase id }) := by
      simp only [MapStorage.Delete, hl]
    rw [hres]
    refine ⟨⟨fun _ => Or.inr hmem, fun _ => rfl⟩, fun _ => ⟨htok, ?_, ?_⟩, fun h => absurd rfl h⟩
    · exact fun h => (AList.mem_erase.mp h).1 rfl
    · exact fun key hkey => ⟨rfl, AList.lookup_erase_ne hkey⟩
  | none =>
    have hnl : id ∉ ms.leases := AList.lookup_eq_none.mp hl
    cases ht : ms.tokens.lookup id with
    | some blob =>
      have hmem : id ∈ ms.tokens := AList.lookup_isSome.mp (by rw [ht]; rfl)
      have hres : ms.Delete id = (none, { ms with tokens := ms.tokens.erase id }) := by
        simp only [MapStorage.Delete, hl, ht]
      rw [hres]
      refine ⟨⟨fun _ => Or.inl hmem, fun _ => rfl⟩, fun _ => ⟨?_, hnl, ?_⟩,
        fun h => absurd rfl h⟩
      · exact fun h => (AList.mem_erase.mp h).1 rfl
      · exact fun key hkey => ⟨AList.lookup_erase_ne hkey, rfl⟩
    | none =>
      have hnt : id ∉ ms.tokens := AList.lookup_eq_none.mp ht
      have hres : ms.Delete id = (some (StorageError.indexNotFound id), ms) := by
        simp only [MapStorage.Delete, hl, ht]
      rw [hres]
      refine ⟨⟨fun h => absurd h (by simp), fun h => ?_⟩, fun h => absurd h (by simp),
        fun _ => rfl⟩
      rcases h with h | h
      · exact absurd h hnt
      · exact absurd h hnl

/-- Witness of C13: deleting the lease "a" from a store that holds the token "b" and
the lease "a". -/
theorem MapStorage.delete_on_disjoint_witness :
    (((⟨AList.singleton "b" [7], AList.singleton "a" [1]⟩ : MapStorage).Delete "a").1 = none ↔
      ("a" ∈ (⟨AList.singleton "b" [7], AList.singleton "a" [1]⟩ : MapStorage).tokens ∨
       "a" ∈ (⟨AList.singleton "b" [7], AList.singleton "a" [1]⟩ : MapStorage).leases)) ∧
    ((⟨AList.singleton "b" [7], AList.singleton "a" [1]⟩ : MapStorage).Delete "a").2 =
      ⟨AList.singleton "b" [7], ∅⟩ :=
  ⟨(MapStorage.delete_on_disjoint ⟨AList.singleton "b" [7], AList.singleton "a" [1]⟩ "a"
      (by
        intro key h
        have h1 : key = "b" := by simpa [AList.mem_keys, AList.keys_singleton] using h.1
        have h2 : key = "a" := by simpa [AList.mem_keys, AList.keys_singleton] using h.2
        rw [h1] at h2
        exact absurd h2 (by decide))).1,
    by decide⟩

/-! ## Send: leases of tokens that the cache does not manage -/

/-- No token entry is cached for a token that no entry of the index carries. -/
theorem tokenCached_eq_false (db : Index) (token : String)
    (h : ∀ kv ∈ db.entries, kv.2.Token ≠ token) : tokenCached db token = false := by
  unfold tokenCached
  rw [List.any_eq_false]
  intro kv hkv
  have hne := h kv hkv
  simp [hne]

/-- C11: when `Send` forwards a request and the Proxier returns a response with
status below 400, no `auth.client_token` and a non-empty `lease_id`, and the token
of the request is neither a registered auto-auth token nor the token of an entry
of the index, `Send` returns the proxied response and leaves the index as it was:
nothing is persisted, the lookup by namespace and request path gives what it gave
before (no entry, if it gave none), and an identical `Send` that follows consults
the Proxier again. -/
theorem LeaseCache.send_unmanaged_lease_not_cached (ext : Collaborators) (lc : LeaseCache)
    (req : SendRequest) (resp : SendResponse) (secret : Secret)
    (proxied2 : Except String SendResponse)
    (hmiss : lc.db.lookup (computeIndexID ext req) = none)
    (hstatus : resp.StatusCode < 400)
    (hparse : ext.parseSecret resp.ResponseBody = some secret)
    (hnotoken : secret.ClientToken = "")
    (hlease : secret.LeaseID ≠ "")
    (hauto : req.Token ∉ lc.autoAuthTokens)
    (hcached : ∀ kv ∈ lc.db.entries, kv.2.Token ≠ req.Token) :
    (lc.Send ext req (Except.ok resp)).resp = some resp ∧
    (lc.Send ext req (Except.ok resp)).err = none ∧
    (lc.Send ext req (Except.ok resp)).consulted = true ∧
    (lc.Send ext req (Except.ok resp)).persisted = none ∧
    (lc.Send ext req (Except.ok resp)).lc.db = lc.db ∧
    (∀ ns path : String,
      getByRequestPath (lc.Send ext req (Except.ok resp)).lc.db ns path =
        getByRequestPath lc.db ns path) ∧
    (getByRequestPath lc.db (deriveNamespaceAndRevocationPath req).1 req.Path = none →
      getByRequestPath (lc.Send ext req (Except.ok resp)).lc.db
        (deriveNamespaceAndRevocationPath req).1 req.Path = none) ∧
    (lc.Send ext req (Except.ok resp)).lc.db.lookup (computeIndexID ext req) = none ∧
    ((lc.Send ext req (Except.ok resp)).lc.Send ext req proxied2).consulted = true := by
  have hnot : ¬ resp.StatusCode ≥ 400 := Nat.not_le.mpr hstatus
  have htok : ¬ secret.ClientToken ≠ "" := fun h => h hnotoken
  have hreg : ¬ (req.Token ∈ lc.autoAuthTokens ∨ tokenCached lc.db req.Token = true) := by
    intro h
    rcases h with h | h
    · exact hauto h
    · rw [tokenCached_eq_false lc.db req.Token hcached] at h
      exact Bool.false_ne_true h
  have hres : lc.Send ext req (Except.ok resp) =
      { resp := some resp, err := none, consulted := true, persisted := none, lc := lc } := by
    simp only [LeaseCache.Send, hmiss, if_neg hnot, hparse, if_neg htok, if_pos hlease,
      if_neg hreg]
  rw [hres]
  refine ⟨rfl, rfl, rfl, rfl, rfl, fun _ _ => rfl, fun h => h, hmiss, ?_⟩
  show (lc.Send ext req proxied2).consulted = true
  cases proxied2 with
  | error e => simp only [LeaseCache.Send, hmiss]
  | ok resp2 =>
    simp only [LeaseCache.Send, hmiss]
    by_cases h400 : resp2.StatusCode ≥ 400
    · simp only [if_pos h400]
    · simp only [if_neg h400]
      cases hp2 : ext.parseSecret resp2.ResponseBody with
      | none => rfl
      | some secret2 =>
        by_cases ht2 : secret2.ClientToken ≠ ""
        · simp only [if_pos ht2, cacheEntry]
        · simp only [if_neg ht2, if_neg hreg]
          by_cases hl2 : secret2.LeaseID ≠ ""
          · simp only [if_pos hl2]
          · simp only [if_neg hl2]

/-- Witness of C11: the scenario of the tests: a 200 response with the lease "foo"
for a request with the token "foo", on a lease cache that manages no token. -/
theorem LeaseCache.send_unmanaged_lease_not_cached_witness :
    ((⟨∅, []⟩ : LeaseCache).Send exampleLeaseCollaborators exampleUnmanagedRequest
        (Except.ok ⟨200, [2]⟩)).resp = some ⟨200, [2]⟩ ∧
    ((⟨∅, []⟩ : LeaseCache).Send exampleLeaseCollaborators exampleUnmanagedRequest
        (Except.ok ⟨200, [2]⟩)).lc.db = ∅ ∧
    (((⟨∅, []⟩ : LeaseCache).Send exampleLeaseCollaborators exampleUnmanagedRequest
        (Except.ok ⟨200, [2]⟩)).lc.Send exampleLeaseCollaborators exampleUnmanagedRequest
        (Except.ok ⟨201, [3]⟩)).consulted = true :=
  have key := LeaseCache.send_unmanaged_lease_not_cached exampleLeaseCollaborators ⟨∅, []⟩
    exampleUnmanagedRequest ⟨200, [2]⟩ ⟨"", "", false, "foo", false⟩ (Except.ok ⟨201, [3]⟩)
    (AList.lookup_empty _) (by decide) rfl rfl (by decide)
    (fun h => absurd h (List.not_mem_nil _)) (fun kv h => absurd h (List.not_mem_nil _))
  ⟨key.1, key.2.2.2.2.1, key.2.2.2.2.2.2.2.2⟩

/-! ## BoltStorage: the buckets exist in every reachable state -/

/-- The sub-buckets of a storage are those of its top bucket. -/
theorem BoltStorage.subBucket_of_top (b : BoltStorage) (top : TopBucket)
    (htop : b.db.lookup b.topBucket = some top) (name : String) :
    b.subBucket name = top.lookup name := by
  simp only [BoltStorage.subBucket, txBucket, bucketBucket, htop]

/-- A storage with a sub-bucket has a top bucket that holds it. -/
theorem BoltStorage.top_of_subBucket (b : BoltStorage) (name : String) (s : LeafBucket)
    (h : b.subBucket name = some s) :
    ∃ top : TopBucket, b.db.lookup b.topBucket = some top ∧ top.lookup name = some s := by
  cases htop : b.db.lookup b.topBucket with
  | none =>
    simp only [BoltStorage.subBucket, txBucket, htop] at h
    exact absurd h (by simp)
  | some top =>
    rw [BoltStorage.subBucket_of_top b top htop] at h
    exact ⟨top, rfl, h⟩

/-- The sub-buckets of a storage whose top bucket was written back. -/
theorem BoltStorage.subBucket_written (b : BoltStorage) (top1 : TopBucket) (name : String) :
    (⟨b.db.insert b.topBucket top1, b.topBucket⟩ : BoltStorage).subBucket name =
      top1.lookup name :=
  BoltStorage.subBucket_of_top _ top1 (AList.lookup_insert _) name

/-- What `Set` returns when the top bucket and the sub-bucket of the kind exist. -/
theorem BoltStorage.set_eq (b : BoltStorage) (id : String) (index : Blob) (kind : IndexType)
    (top : TopBucket) (s : LeafBucket)
    (htop : b.db.lookup b.topBucket = some top) (hs : top.lookup kind = some s) :
    b.Set id index kind =
      match bucketPut s id index with
      | Except.error err => Run.done (some (StorageError.bolt err), b)
      | Except.ok s1 =>
        Run.done (none, ⟨b.db.insert b.topBucket (top.insert kind s1), b.topBucket⟩) := by
  cases hput : bucketPut s id index with
  | error err =>
    simp only [BoltStorage.Set, dbUpdate, txBucket, bucketBucket, htop, hs, hput]
  | ok s1 =>
    simp only [BoltStorage.Set, dbUpdate, txBucket, bucketBucket, htop, hs, hput]

/-- A returning `Set` either leaves the storage as it was or writes one sub-bucket
of the top bucket back. -/
theorem BoltStorage.set_cases (b b1 : BoltStorage) (id : String) (index : Blob)
    (kind : IndexType) (err : Option StorageError)
    (h : b.Set id index kind = Run.done (err, b1)) :
    b1 = b ∨ ∃ (top : TopBucket) (s1 : LeafBucket), b.db.lookup b.topBucket = some top ∧
      b1 = ⟨b.db.insert b.topBucket (top.insert kind s1), b.topBucket⟩ := by
  cases htop : b.db.lookup b.topBucket with
  | none =>
    left
    simp only [BoltStorage.Set, dbUpdate, txBucket, htop, Run.done.injEq, Prod.mk.injEq] at h
    exact h.2.symm
  | some top =>
    cases hs : top.lookup kind with
    | none =>
      left
      simp only [BoltStorage.Set, dbUpdate, txBucket, bucketBucket, htop, hs, Run.done.injEq,
        Prod.mk.injEq] at h
      exact h.2.symm
    | some s =>
      rw [BoltStorage.set_eq b id index kind top s htop hs] at h
      cases hput : bucketPut s id index with
      | error e =>
        left
        simp only [hput, Run.done.injEq, Prod.mk.injEq] at h
        exact h.2.symm
      | ok s1 =>
        right
        simp only [hput, Run.done.injEq, Prod.mk.injEq] at h
        exact ⟨top, s1, rfl, h.2.symm⟩

/-- What `Delete` returns when the top bucket and both sub-buckets exist. -/
theorem BoltStorage.delete_eq (b : BoltStorage) (id : String) (top : TopBucket)
    (tok lea : LeafBucket) (htop : b.db.lookup b.topBucket = some top)
    (ht : top.lookup TokenType = some tok) (hl : top.lookup LeaseType = some lea) :
    b.Delete id =
      Run.done (none,
        ⟨b.db.insert b.topBucket
          ((top.insert TokenType (tok.erase id)).insert LeaseType (lea.erase id)),
          b.topBucket⟩) := by
  have hne : LeaseType ≠ TokenType := by decide
  have hl1 : (top.insert TokenType (tok.erase id)).lookup LeaseType = some lea := by
    rw [AList.lookup_insert_ne hne]; exact hl
  simp only [BoltStorage.Delete, dbUpdate, txBucket, bucketBucket, bucketDelete, htop, ht, hl1]

/-- What `GetByType` returns when the top bucket and the sub-bucket of the kind
exist. -/
theorem BoltStorage.getByType_eq (b : BoltStorage) (kind : IndexType) (top : TopBucket)
    (s : LeafBucket) (htop : b.db.lookup b.topBucket = some top)
    (hs : top.lookup kind = some s) :
    b.GetByType kind =
      Run.done (some ((forEachOrder s).foldl (fun acc kv => acc ++ [kv.2]) []), none, b) := by
  simp only [BoltStorage.GetByType, txBucket, bucketBucket, htop, hs]

/-- A returning `GetByType` leaves the storage as it was. -/
theorem BoltStorage.getByType_state (b b1 : BoltStorage) (kind : IndexType)
    (out : Option (List Blob)) (err : Option StorageError)
    (h : b.GetByType kind = Run.done (out, err, b1)) : b1 = b := by
  cases htop : b.db.lookup b.topBucket with
  | none =>
    simp only [BoltStorage.GetByType, txBucket, htop, Run.done.injEq, Prod.mk.injEq] at h
    exact h.2.2.symm
  | some top =>
    cases hs : top.lookup kind with
    | none =>
      simp only [BoltStorage.GetByType, txBucket, bucketBucket, htop, hs] at h
      exact absurd h (by simp)
    | some s =>
      rw [BoltStorage.getByType_eq b kind top s htop hs] at h
      simp only [Run.done.injEq, Prod.mk.injEq] at h
      exact h.2.2.symm

/-- A successful `NewBoltStorage` returns a storage whose buckets exist. -/
theorem NewBoltStorage_bucketsExist (db db1 : BoltDB) (b : BoltStorage)
    (h : NewBoltStorage db = Run.done (some b, none, db1)) : b.bucketsExist := by
  have hlen : ¬ goLen "topBucket" = 0 := by decide
  have hlenT : ¬ goLen TokenType = 0 := by decide
  have hlenL : ¬ goLen LeaseType = 0 := by decide
  have hfresh : (((∅ : TopBucket).insert TokenType ∅).lookup LeaseType) = none := by decide
  cases hlook : db.lookup "topBucket" with
  | some top =>
    simp only [NewBoltStorage, dbUpdate, createBuckets, txCreateBucket, if_neg hlen, hlook]
      at h
    exact absurd h (by simp)
  | none =>
    simp only [NewBoltStorage, dbUpdate, createBuckets, txCreateBucket, bucketCreateBucket,
      if_neg hlen, if_neg hlenT, if_neg hlenL, hlook, AList.lookup_empty, hfresh,
      Run.done.injEq, Prod.mk.injEq, Option.some.injEq, true_and] at h
    obtain ⟨hb, _⟩ := h
    subst hb
    refine ⟨∅, ∅, ?_, ?_⟩
    · simp only [BoltStorage.subBucket, txBucket, bucketBucket, AList.lookup_insert]
      decide
    · simp only [BoltStorage.subBucket, txBucket, bucketBucket, AList.lookup_insert]

/-- `Set` preserves the existence of the buckets. -/
theorem BoltStorage.set_preserves (b b1 : BoltStorage) (id : String) (index : Blob)
    (kind : IndexType) (err : Option StorageError) (hinv : b.bucketsExist)
    (h : b.Set id index kind = Run.done (err, b1)) : b1.bucketsExist := by
  rcases BoltStorage.set_cases b b1 id index kind err h with rfl | ⟨top, s1, htop, rfl⟩
  · exact hinv
  · obtain ⟨tok, lea, ht, hl⟩ := hinv
    rw [BoltStorage.subBucket_of_top b top htop] at ht hl
    have hsub : ∀ (name : String) (s : LeafBucket), top.lookup name = some s →
        ∃ s2 : LeafBucket, (top.insert kind s1).lookup name = some s2 := by
      intro name s hs
      by_cases hk : name = kind
      · subst hk
        exact ⟨s1, AList.lookup_insert _⟩
      · exact ⟨s, by rw [AList.lookup_insert_ne hk]; exact hs⟩
    obtain ⟨tok2, ht2⟩ := hsub TokenType tok ht
    obtain ⟨lea2, hl2⟩ := hsub LeaseType lea hl
    exact ⟨tok2, lea2, by rw [BoltStorage.subBucket_written]; exact ht2,
      by rw [BoltStorage.subBucket_written]; exact hl2⟩

/-- `Delete` preserves the existence of the buckets. -/
theorem BoltStorage.delete_preserves (b b1 : BoltStorage) (id : String)
    (err : Option StorageError) (hinv : b.bucketsExist)
    (h : b.Delete id = Run.done (err, b1)) : b1.bucketsExist := by
  have hne : TokenType ≠ LeaseType := by decide
  obtain ⟨tok, lea, ht, hl⟩ := hinv
  obtain ⟨top, htop, ht1⟩ := BoltStorage.top_of_subBucket b TokenType tok ht
  rw [BoltStorage.subBucket_of_top b top htop] at hl
  rw [BoltStorage.delete_eq b id top tok lea htop ht1 hl] at h
  simp only [Run.done.injEq, Prod.mk.injEq] at h
  rw [← h.2]
  refine ⟨tok.erase id, lea.erase id, ?_, ?_⟩
  · rw [BoltStorage.subBucket_written, AList.lookup_insert_ne hne, AList.lookup_insert]
  · rw [BoltStorage.subBucket_written, AList.lookup_insert]

/-- The buckets exist in every reachable state. -/
theorem BoltStorage.reachable_bucketsExist (b : BoltStorage) (h : b.Reachable) :
    b.bucketsExist := by
  induction h with
  | opened db db1 b hopen => exact NewBoltStorage_bucketsExist db db1 b hopen
  | afterSet b b1 id index kind err _ hset ih =>
    exact BoltStorage.set_preserves b b1 id index kind err ih hset
  | afterDelete b b1 id err _ hdel ih => exact BoltStorage.delete_preserves b b1 id err ih hdel
  | afterGetByType b b1 kind out err _ hget ih =>
    rw [BoltStorage.getByType_state b b1 kind out err hget]
    exact ih

/-- C14: `NewBoltStorage` on an empty database returns a storage whose top bucket and
"token" and "lease" sub-buckets exist; `Set`, `Delete` and `GetByType` preserve their
existence; and in every state reachable from a successful `NewBoltStorage`, `Set`
with kind "token" or "lease" returns without a "bucket not found" error, and
`Delete` and `GetByType` with kind "token" or "lease" meet no nil sub-bucket. -/
theorem BoltStorage.buckets_exist_invariant (b : BoltStorage) (hreach : b.Reachable) :
    (∃ (b0 : BoltStorage) (db1 : BoltDB),
      NewBoltStorage ∅ = Run.done (some b0, none, db1) ∧ b0.bucketsExist) ∧
    b.bucketsExist ∧
    (∀ (c c1 : BoltStorage) (id : String) (index : Blob) (kind : IndexType)
        (err : Option StorageError),
      c.bucketsExist → c.Set id index kind = Run.done (err, c1) → c1.bucketsExist) ∧
    (∀ (c c1 : BoltStorage) (id : String) (err : Option StorageError),
      c.bucketsExist → c.Delete id = Run.done (err, c1) → c1.bucketsExist) ∧
    (∀ (c c1 : BoltStorage) (kind : IndexType) (out : Option (List Blob))
        (err : Option StorageError),
      c.bucketsExist → c.GetByType kind = Run.done (out, err, c1) → c1.bucketsExist) ∧
    (∀ (id : String) (index : Blob) (kind : IndexType), kind = TokenType ∨ kind = LeaseType →
      ∃ (err : Option StorageError) (b1 : BoltStorage),
        b.Set id index kind = Run.done (err, b1) ∧
        ∀ name : String, err ≠ some (StorageError.bucketNotFound name)) ∧
    (∀ id : String, ∃ b1 : BoltStorage, b.Delete id = Run.done (none, b1)) ∧
    (∀ kind : IndexType, kind = TokenType ∨ kind = LeaseType →
      ∃ out : List Blob, b.GetByType kind = Run.done (some out, none, b)) := by
  have hinv := BoltStorage.reachable_bucketsExist b hreach
  obtain ⟨tok, lea, ht, hl⟩ := hinv
  obtain ⟨top, htop, ht1⟩ := BoltStorage.top_of_subBucket b TokenType tok ht
  have hl1 : top.lookup LeaseType = some lea := by
    rw [BoltStorage.subBucket_of_top b top htop] at hl
    exact hl
  have hkind : ∀ kind : IndexType, kind = TokenType ∨ kind = LeaseType →
      ∃ s : LeafBucket, top.lookup kind = some s := by
    intro kind hk
    rcases hk with rfl | rfl
    · exact ⟨tok, ht1⟩
    · exact ⟨lea, hl1⟩
  refine ⟨⟨⟨freshDB, "topBucket"⟩, freshDB, by decide,
      NewBoltStorage_bucketsExist ∅ freshDB ⟨freshDB, "topBucket"⟩ (by decide)⟩,
    ⟨tok, lea, ht, hl⟩, ?_, ?_, ?_, ?_, ?_, ?_⟩
  · exact fun c c1 id index kind err hc h =>
      BoltStorage.set_preserves c c1 id index kind err hc h
  · exact fun c c1 id err hc h => BoltStorage.delete_preserves c c1 id err hc h
  · intro c c1 kind out err hc h
    rw [BoltStorage.getByType_state c c1 kind out err h]
    exact hc
  · intro id index kind hk
    obtain ⟨s, hs⟩ := hkind kind hk
    rw [BoltStorage.set_eq b id index kind top s htop hs]
    cases hput : bucketPut s id index with
    | error e => exact ⟨_, _, rfl, fun name hname => by simp at hname⟩
    | ok s1 => exact ⟨_, _, rfl, fun name hname => by simp at hname⟩
  · exact fun id => ⟨_, BoltStorage.delete_eq b id top tok lea htop ht1 hl1⟩
  · intro kind hk
    obtain ⟨s, hs⟩ := hkind kind hk
    exact ⟨_, BoltStorage.getByType_eq b kind top s htop hs⟩

/-- Witness of C14: the storage reached by `NewBoltStorage` on an empty database
followed by `Set("t1", [1], "token")`. -/
theorem BoltStorage.buckets_exist_invariant_witness :
    (⟨(freshDB.insert "topBucket"
        ((((∅ : TopBucket).insert "token" ∅).insert "lease" ∅).insert "token"
          ((∅ : LeafBucket).insert "t1" [1]))), "topBucket"⟩ : BoltStorage).bucketsExist ∧
    ∀ id : String, ∃ b1 : BoltStorage,
      (⟨(freshDB.insert "topBucket"
        ((((∅ : TopBucket).insert "token" ∅).insert "lease" ∅).insert "token"
          ((∅ : LeafBucket).insert "t1" [1]))), "topBucket"⟩ : BoltStorage).Delete id =
        Run.done (none, b1) :=
  have key := BoltStorage.buckets_exist_invariant
    ⟨(freshDB.insert "topBucket"
        ((((∅ : TopBucket).insert "token" ∅).insert "lease" ∅).insert "token"
          ((∅ : LeafBucket).insert "t1" [1]))), "topBucket"⟩
    (BoltStorage.Reachable.afterSet ⟨freshDB, "topBucket"⟩ _ "t1" [1] TokenType none
      (BoltStorage.Reachable.opened ∅ freshDB ⟨freshDB, "topBucket"⟩ (by decide))
      (by decide))
  ⟨key.2.1, key.2.2.2.2.2.2.1⟩

/-! ## The two implementations side by side -/

/-- Maps that give every id the same blob have the same values up to order. -/
theorem mapValues_perm_of_lookup (s m : GoMap) (h : ∀ id : String, s.lookup id = m.lookup id) :
    (mapValues s).Perm (mapValues m) := by
  unfold mapValues
  refine List.Perm.map _ (List.lookup_ext s.nodupKeys m.nodupKeys ?_)
  intro x y
  have hx := h x
  simp only [AList.lookup] at hx
  rw [hx]

/-- The slice that `BoltStorage.GetByType` builds holds the values of the bucket. -/
theorem forEach_values_perm (s : LeafBucket) :
    ((forEachOrder s).foldl (fun acc kv => acc ++ [kv.2]) []).Perm (mapValues s) := by
  rw [foldl_append_values, List.nil_append]
  unfold forEachOrder mapValues
  exact (List.perm_insertionSort _ _).map _

/-- `Put` accepts a key and a value within the limits of the bolt library. -/
theorem bucketPut_within_limits (s : LeafBucket) (id : String) (index : Blob)
    (h0 : goLen id ≠ 0) (h1 : goLen id ≤ MaxKeySize) (h2 : index.length ≤ MaxValueSize) :
    bucketPut s id index = Except.ok (s.insert id index) := by
  unfold bucketPut
  rw [if_neg h0, if_neg (Nat.not_lt.mpr h1), if_neg (Nat.not_lt.mpr h2)]

/-- A blob stored in a map that fits on a page is within `MaxValueSize`. -/
theorem length_le_of_storedSize (m : GoMap) (id : String) (index : Blob)
    (h : storedSize (m.insert id index) ≤ maxAllocSize) : index.length ≤ MaxValueSize := by
  unfold storedSize at h
  rw [AList.insert_entries, List.map_cons, List.sum_cons] at h
  have hmax : maxAllocSize = MaxValueSize + 1 := by decide
  have h16 : leafPageElementSize = 16 := rfl
  simp only at h
  omega

/-- Inserting the same entry into maps that agree gives maps that agree. -/
theorem lookup_insert_congr (s m : GoMap) (id : String) (index : Blob)
    (h : ∀ key : String, s.lookup key = m.lookup key) (key : String) :
    (s.insert id index).lookup key = (m.insert id index).lookup key := by
  by_cases hk : key = id
  · subst hk
    rw [AList.lookup_insert, AList.lookup_insert]
  · rw [AList.lookup_insert_ne hk, AList.lookup_insert_ne hk]
    exact h key

/-- Erasing the same key from maps that agree gives maps that agree. -/
theorem lookup_erase_congr (s m : GoMap) (id : String)
    (h : ∀ key : String, s.lookup key = m.lookup key) (key : String) :
    (s.erase id).lookup key = (m.erase id).lookup key := by
  by_cases hk : key = id
  · subst hk
    rw [AList.lookup_erase, AList.lookup_erase]
  · rw [AList.lookup_erase_ne hk, AList.lookup_erase_ne hk]
    exact h key

/-- Erasing a key that a map does not hold leaves every lookup as it was. -/
theorem lookup_erase_absent (s m : GoMap) (id : String)
    (h : ∀ key : String, s.lookup key = m.lookup key) (habs : id ∉ m) (key : String) :
    (s.erase id).lookup key = m.lookup key := by
  by_cases hk : key = id
  · subst hk
    rw [AList.lookup_erase, AList.lookup_eq_none.mpr habs]
  · rw [AList.lookup_erase_ne hk]
    exact h key

/-- One well-formed call within the limits of the bolt library: the `BoltStorage`
call returns, with the same outcome as the `MapStorage` call, and the stores hold
the same contents after it. -/
theorem call_agrees (seed : Nat) (ms : MapStorage) (b : BoltStorage) (op : Op)
    (hc : sameContents ms b) (hwf : wellFormedOp ms op) (hlim : withinBoltLimits ms op) :
    ∃ (out : Outcome) (b1 : BoltStorage),
      b.call op = Run.done (out, b1) ∧
      sameOutcome (ms.call seed op).1 out ∧
      sameContents (ms.call seed op).2 b1 := by
  have hne : TokenType ≠ LeaseType := by decide
  obtain ⟨tok, lea, ht, hl, hsame⟩ := hc
  obtain ⟨top, htop, ht1⟩ := BoltStorage.top_of_subBucket b TokenType tok ht
  have hl1 : top.lookup LeaseType = some lea := by
    rw [BoltStorage.subBucket_of_top b top htop] at hl
    exact hl
  cases op with
  | set id index kind =>
    obtain ⟨h0, h1, hfit⟩ := hlim
    have h2 : index.length ≤ MaxValueSize := length_le_of_storedSize _ id index hfit
    rcases hwf with rfl | rfl
    · refine ⟨(none, none), ⟨b.db.insert b.topBucket (top.insert TokenType (tok.insert id index)),
        b.topBucket⟩, ?_, ?_, ?_⟩
      · simp only [BoltStorage.call, BoltStorage.set_eq b id index TokenType top tok htop ht1,
          bucketPut_within_limits tok id index h0 h1 h2]
      · simp only [MapStorage.call, MapStorage.Set, if_neg hne, if_true, sameOutcome]
        exact ⟨trivial, trivial⟩
      · refine ⟨tok.insert id index, lea, ?_, ?_, ?_⟩
        · rw [BoltStorage.subBucket_written, AList.lookup_insert]
        · rw [BoltStorage.subBucket_written, AList.lookup_insert_ne hne.symm]
          exact hl1
        · intro key
          simp only [MapStorage.call, MapStorage.Set, if_neg hne, if_true]
          exact ⟨lookup_insert_congr tok ms.tokens id index (fun k => (hsame k).1) key,
            (hsame key).2⟩
    · refine ⟨(none, none), ⟨b.db.insert b.topBucket (top.insert LeaseType (lea.insert id index)),
        b.topBucket⟩, ?_, ?_, ?_⟩
      · simp only [BoltStorage.call, BoltStorage.set_eq b id index LeaseType top lea htop hl1,
          bucketPut_within_limits lea id index h0 h1 h2]
      · simp only [MapStorage.call, MapStorage.Set, if_true, sameOutcome]
        exact ⟨trivial, trivial⟩
      · refine ⟨tok, lea.insert id index, ?_, ?_, ?_⟩
        · rw [BoltStorage.subBucket_written, AList.lookup_insert_ne hne]
          exact ht1
        · rw [BoltStorage.subBucket_written, AList.lookup_insert]
        · intro key
          simp only [MapStorage.call, MapStorage.Set, if_true]
          exact ⟨(hsame key).1,
            lookup_insert_congr lea ms.leases id index (fun k => (hsame k).2) key⟩
  | delete id =>
    refine ⟨(none, none), ⟨b.db.insert b.topBucket
        ((top.insert TokenType (tok.erase id)).insert LeaseType (lea.erase id)), b.topBucket⟩,
      ?_, ?_, ?_⟩
    · simp only [BoltStorage.call, BoltStorage.delete_eq b id top tok lea htop ht1 hl1]
    · rcases hwf with ⟨hin, hout⟩ | ⟨hout, hin⟩
      · obtain ⟨blob, hblob⟩ := Option.isSome_iff_exists.mp (AList.lookup_isSome.mpr hin)
        simp only [MapStorage.call, MapStorage.Delete, AList.lookup_eq_none.mpr hout, hblob,
          sameOutcome]
        exact ⟨trivial, trivial⟩
      · obtain ⟨blob, hblob⟩ := Option.isSome_iff_exists.mp (AList.lookup_isSome.mpr hin)
        simp only [MapStorage.call, MapStorage.Delete, hblob, sameOutcome]
        exact ⟨trivial, trivial⟩
    · refine ⟨tok.erase id, lea.erase id, ?_, ?_, ?_⟩
      · rw [BoltStorage.subBucket_written, AList.lookup_insert_ne hne, AList.lookup_insert]
      · rw [BoltStorage.subBucket_written, AList.lookup_insert]
      · intro key
        rcases hwf with ⟨hin, hout⟩ | ⟨hout, hin⟩
        · obtain ⟨blob, hblob⟩ := Option.isSome_iff_exists.mp (AList.lookup_isSome.mpr hin)
          simp only [MapStorage.call, MapStorage.Delete, AList.lookup_eq_none.mpr hout, hblob]
          exact ⟨lookup_erase_congr tok ms.tokens id (fun k => (hsame k).1) key,
            lookup_erase_absent lea ms.leases id (fun k => (hsame k).2) hout key⟩
        · obtain ⟨blob, hblob⟩ := Option.isSome_iff_exists.mp (AList.lookup_isSome.mpr hin)
          simp only [MapStorage.call, MapStorage.Delete, hblob]
          exact ⟨lookup_erase_absent tok ms.tokens id (fun k => (hsame k).1) hout key,
            lookup_erase_congr lea ms.leases id (fun k => (hsame k).2) key⟩
  | getByType kind =>
    rcases hwf with rfl | rfl
    · refine ⟨(some ((forEachOrder tok).foldl (fun acc kv => acc ++ [kv.2]) []), none), b,
        ?_, ?_, ?_⟩
      · simp only [BoltStorage.call, BoltStorage.getByType_eq b TokenType top tok htop ht1]
      · simp only [MapStorage.call, MapStorage.GetByType, if_neg hne, if_true, sameOutcome]
        refine ⟨trivial, ?_⟩
        exact (appendValues_perm seed ms.tokens).trans
          ((mapValues_perm_of_lookup tok ms.tokens (fun k => (hsame k).1)).symm.trans
            (forEach_values_perm tok).symm)
      · simp only [MapStorage.call, MapStorage.GetByType, if_neg hne, if_true]
        exact ⟨tok, lea, ht, hl, hsame⟩
    · refine ⟨(some ((forEachOrder lea).foldl (fun acc kv => acc ++ [kv.2]) []), none), b,
        ?_, ?_, ?_⟩
      · simp only [BoltStorage.call, BoltStorage.getByType_eq b LeaseType top lea htop hl1]
      · simp only [MapStorage.call, MapStorage.GetByType, if_true, sameOutcome]
        refine ⟨trivial, ?_⟩
        exact (appendValues_perm seed ms.leases).trans
          ((mapValues_perm_of_lookup lea ms.leases (fun k => (hsame k).2)).symm.trans
            (forEach_values_perm lea).symm)
      · simp only [MapStorage.call, MapStorage.GetByType, if_true]
        exact ⟨tok, lea, ht, hl, hsame⟩

/-- Stores with the same contents agree along every well-formed sequence of calls
within the limits of the bolt library. -/
theorem agreeAlong_of_sameContents (ops : List Op) :
    ∀ (ms : MapStorage) (b : BoltStorage), sameContents ms b →
      allCalls wellFormedOp ms ops → allCalls withinBoltLimits ms ops →
      agreeAlong ms b ops := by
  induction ops with
  | nil => exact fun _ _ _ _ _ => trivial
  | cons op rest ih =>
    intro ms b hc hwf hlim seed
    obtain ⟨out, b1, hcall, hout, hc1⟩ := call_agrees seed ms b op hc hwf.1 hlim.1
    exact ⟨out, b1, hcall, hout, hc1,
      ih (ms.call seed op).2 b1 hc1 (hwf.2 seed) (hlim.2 seed)⟩

/-- C15 (as the code has it): starting from `NewMapStorage` and from the storage
that `NewBoltStorage` returns on an empty database, along every sequence of `Set`
with kind "token" or "lease", an id that is not blank and has at most 32768 bytes,
and a blob with which the entries of the partition still fit on a page of the
bolt library (16 bytes and the bytes of id and blob for every entry, at most
2^31 - 1 bytes in all), `Delete` of an id stored in exactly one partition, and
`GetByType` with kind "token" or "lease", both implementations return the same
error or no-error outcome at every step, hold the same blob for every kind and id
after every step, and return the same blobs from `GetByType` up to order. -/
theorem storage_implementations_agree (ops : List Op)
    (hwf : allCalls wellFormedOp NewMapStorage ops)
    (hlim : allCalls withinBoltLimits NewMapStorage ops) :
    NewBoltStorage ∅ = Run.done (some ⟨freshDB, "topBucket"⟩, none, freshDB) ∧
    sameContents NewMapStorage ⟨freshDB, "topBucket"⟩ ∧
    agreeAlong NewMapStorage ⟨freshDB, "topBucket"⟩ ops := by
  have hstart : sameContents NewMapStorage ⟨freshDB, "topBucket"⟩ :=
    ⟨∅, ∅, by decide, by decide, fun id => ⟨rfl, rfl⟩⟩
  exact ⟨by decide, hstart,
    agreeAlong_of_sameContents ops NewMapStorage ⟨freshDB, "topBucket"⟩ hstart hwf hlim⟩

/-- Witness of C15: a token and a lease are stored, the leases are listed, and the
token is deleted. -/
theorem storage_implementations_agree_witness :
    agreeAlong NewMapStorage ⟨freshDB, "topBucket"⟩
      [Op.set "a" [1] TokenType, Op.set "b" [2] LeaseType, Op.getByType LeaseType,
        Op.delete "a"] :=
  (storage_implementations_agree
    [Op.set "a" [1] TokenType, Op.set "b" [2] LeaseType, Op.getByType LeaseType, Op.delete "a"]
    ⟨Or.inl rfl, fun _ => ⟨Or.inr rfl, fun _ => ⟨Or.inr rfl, fun _ =>
      ⟨Or.inl
        ⟨show "a" ∈ (AList.insert "a" [1] ∅ : GoMap) from by decide,
          show "a" ∉ (AList.insert "b" [2] ∅ : GoMap) from by decide⟩,
        fun _ => trivial⟩⟩⟩⟩
    ⟨⟨by decide, by decide,
        show storedSize (AList.insert "a" [1] ∅ : GoMap) ≤ maxAllocSize from by decide⟩,
      fun _ => ⟨⟨by decide, by decide,
          show storedSize (AList.insert "b" [2] ∅ : GoMap) ≤ maxAllocSize from by decide⟩,
        fun _ => ⟨trivial, fun _ => ⟨trivial, fun _ => trivial⟩⟩⟩⟩).2.2

/-- C15 as stated fails: `Set("", [1], "token")` is a `Set` with kind "token"; on a new
`MapStorage` it returns nil, on the freshly initialised `BoltStorage` it returns the
error "key required" of the bolt library, so the two do not agree. -/
theorem storage_implementations_differ_on_blank_id :
    allCalls wellFormedOp NewMapStorage [Op.set "" [1] TokenType] ∧
    (NewMapStorage.Set "" [1] TokenType).1 = none ∧
    (⟨freshDB, "topBucket"⟩ : BoltStorage).Set "" [1] TokenType =
      Run.done (some (StorageError.bolt BoltError.keyRequired), ⟨freshDB, "topBucket"⟩) ∧
    ¬ agreeAlong NewMapStorage ⟨freshDB, "topBucket"⟩ [Op.set "" [1] TokenType] := by
  refine ⟨⟨Or.inl rfl, fun _ => trivial⟩, by decide, by decide, ?_⟩
  intro h
  obtain ⟨out, b1, hcall, hsame, _⟩ := h 0
  have hb : (⟨freshDB, "topBucket"⟩ : BoltStorage).call (Op.set "" [1] TokenType) =
      Run.done ((none, some (StorageError.bolt BoltError.keyRequired)),
        ⟨freshDB, "topBucket"⟩) := by
    decide
  rw [hb] at hcall
  simp only [Run.done.injEq, Prod.mk.injEq] at hcall
  rw [← hcall.1] at hsame
  exact absurd (hsame.1.mp rfl) (by simp)

/-- A `Set` of a blob of `MaxValueSize` bytes, the largest that `Put` accepts, is
outside the limits: with its header the entry takes more than `maxAllocSize`
bytes. -/
theorem largest_value_outside_limits (ms : MapStorage) (id : String) (index : Blob)
    (kind : IndexType) (hlen : index.length = MaxValueSize) :
    ¬ withinBoltLimits ms (Op.set id index kind) := by
  intro h
  have hfit : storedSize ((ms.byKind kind).insert id index) ≤ maxAllocSize := h.2.2
  unfold storedSize at hfit
  rw [AList.insert_entries, List.map_cons, List.sum_cons] at hfit
  have hmax : maxAllocSize = MaxValueSize + 1 := by decide
  have h16 : leafPageElementSize = 16 := rfl
  simp only at hfit
  omega
